import Mathlib

/-!
Verification of the `un-optional-chaining` transformation of the wakaru
unminifier (`src/packages/unminify/src/transformations/un-optional-chaining.ts`).

The JavaScript AST (the fragment of ast-types / jscodeshift node kinds that the
transformation inspects) is embedded as the inductive type `Expr` below.  The
transformation functions are translated from the TypeScript source; helpers that
the source imports from packages outside `src/` (`@wakaru/ast-utils` matchers,
the decision-tree builder and negator from `../utils/decisionTree`, and
`negateCondition` from `../utils/condition`) are modelled from the spec and
carry a doc comment saying so.
-/

namespace Wakaru

/--
Embedding of the JavaScript expression AST fragment used by the transformation.
Node kinds mirror ast-types: `ident` is `Identifier`, `nullLit` is
`NullLiteral`, `numLit`/`strLit`/`boolLit` are the literal kinds, `member` /
`optMember` are `MemberExpression` / `OptionalMemberExpression`, `call` /
`optCall` are `CallExpression` / `OptionalCallExpression`, `binary`, `logical`,
`cond`, `assign`, `unary` and `seq` are the corresponding expression kinds with
their operator stored as the source string.  `spreadElem` stands for a
`SpreadElement` occurring in an argument or array-element list, and `hole`
stands for a `null` entry (elision) in an `ArrayExpression.elements` array.

Node lists (call arguments, sequence expressions, array elements) are encoded
as chains of `argsCons` cells ending in `argsNil`, so that the type is a plain
recursive inductive (decidable equality is then derivable); `Expr.toList` /
`Expr.ofList` convert between a chain and a `List Expr`.

Comments and source locations are not represented, so the structural node
comparison `areNodesEqual` of ast-utils is plain equality of `Expr`.
-/
inductive Expr where
  | ident (name : String)
  | nullLit
  | numLit (n : Int)
  | strLit (s : String)
  | boolLit (b : Bool)
  | member (obj prop : Expr) (computed : Bool)
  | optMember (obj prop : Expr) (computed : Bool)
  | call (callee args : Expr)
  | optCall (callee args : Expr)
  | binary (op : String) (l r : Expr)
  | logical (op : String) (l r : Expr)
  | cond (test cons alt : Expr)
  | assign (op : String) (l r : Expr)
  | unary (op : String) (arg : Expr) (pfx : Bool)
  | seq (exprs : Expr)
  | arrayLit (elems : Expr)
  | spreadElem (arg : Expr)
  | hole
  | argsNil
  | argsCons (head tail : Expr)
deriving DecidableEq, Repr

namespace Expr

/-- Convert an `argsCons` chain to a `List Expr` (anything that is not a chain
cell ends the list). -/
def toList : Expr → List Expr
  | argsCons h t => h :: toList t
  | _ => []

/-- Build an `argsCons` chain from a `List Expr`. -/
def ofList : List Expr → Expr
  | [] => argsNil
  | h :: t => argsCons h (ofList t)

/-- Modelled from the spec: ast-utils matcher `isNull` — the `null` literal. -/
def isNull : Expr → Bool
  | nullLit => true
  | _ => false

/-- Modelled from the spec: ast-utils matcher `isUndefined` — the identifier
`undefined` or the minifier form `void 0`. -/
def isUndefined : Expr → Bool
  | ident "undefined" => true
  | unary "void" (numLit 0) _ => true
  | _ => false

/-- Modelled from the spec: ast-utils matcher `isTrue` — the `true` literal. -/
def isTrue : Expr → Bool
  | boolLit true => true
  | _ => false

/-- Modelled from the spec: ast-utils matcher `isNullBinary` — an equality
comparison (`==` or `===`) with the `null` literal on either side. -/
def isNullBinary : Expr → Bool
  | binary op l r => (op = "==" || op = "===") && (l.isNull || r.isNull)
  | _ => false

/-- Modelled from the spec: ast-utils matcher `isUndefinedBinary` — an equality
comparison (`==` or `===`) with `undefined` / `void 0` on either side. -/
def isUndefinedBinary : Expr → Bool
  | binary op l r => (op = "==" || op = "===") && (l.isUndefined || r.isUndefined)
  | _ => false

/-- Modelled from the spec: ast-utils matcher `isNotNullBinary` — an inequality
comparison (`!=` or `!==`) with the `null` literal on either side (the strict
"not-null" outer test that triggers tree negation, spec section 4.2). -/
def isNotNullBinary : Expr → Bool
  | binary op l r => (op = "!=" || op = "!==") && (l.isNull || r.isNull)
  | _ => false

/-- `j.MemberExpression.check` — in ast-types `OptionalMemberExpression` is a
subtype of `MemberExpression`, so the check accepts both kinds. -/
def isMemberLike : Expr → Bool
  | member .. => true
  | optMember .. => true
  | _ => false

/-- `j.CallExpression.check(node) || j.OptionalCallExpression.check(node)`. -/
def isCallLike : Expr → Bool
  | call .. => true
  | optCall .. => true
  | _ => false

/-- `j.Identifier.check`. -/
def isIdent : Expr → Bool
  | ident _ => true
  | _ => false

/-- `j.SpreadElement.check`. -/
def isSpread : Expr → Bool
  | spreadElem _ => true
  | _ => false

/-- Modelled from the spec: `memberExpressionKindTypes` of
`@wakaru/ast-utils/kinds` — the member-expression node kinds representable in
this embedding. -/
def isMemberKindType : Expr → Bool
  | member .. => true
  | optMember .. => true
  | _ => false

/-- Modelled from the spec: `patternKindTypes` of `@wakaru/ast-utils/kinds` —
of the pattern node kinds only `Identifier` is representable in this
embedding. -/
def isPatternKindType : Expr → Bool
  | ident _ => true
  | _ => false

end Expr

/--
Modelled from the spec: `negateCondition` of `../utils/condition` (not under
`src/`).  Section 4.2 requires that negating and later re-negating restores the
original expression, and the worked example
`a !== null && … ? a.b.c : undefined` → `a?.b?.c` requires that the falsy
(`null` / `undefined`) leaves of a negated decision tree remain recognizable to
the Chain Constructor's falsy-branch test.  Hence: a `!` wrapper is stripped,
comparison operators are flipped, boolean literals are folded, the nullish
markers `null` / `undefined` / `void 0` are left unchanged, and anything else
is wrapped in `!`.
-/
def negateCondition : Expr → Expr
  | .unary "!" e _ => e
  | .binary "==" l r => .binary "!=" l r
  | .binary "!=" l r => .binary "==" l r
  | .binary "===" l r => .binary "!==" l r
  | .binary "!==" l r => .binary "===" l r
  | .binary "<" l r => .binary ">=" l r
  | .binary ">" l r => .binary "<=" l r
  | .binary "<=" l r => .binary ">" l r
  | .binary ">=" l r => .binary "<" l r
  | .boolLit b => .boolLit !b
  | .nullLit => .nullLit
  | .ident "undefined" => .ident "undefined"
  | .unary "void" (.numLit 0) pfx => .unary "void" (.numLit 0) pfx
  | e => .unary "!" e true

/-- The decision-tree node of `../utils/decisionTree`:
`{condition, trueBranch, falseBranch}`.  A `null` branch of the TypeScript
record is the constructor `nil`. -/
inductive DecisionTree where
  | nil
  | node (condition : Expr) (trueBranch falseBranch : DecisionTree)
deriving DecidableEq, Repr

namespace DecisionTree

/-- The condition of a tree node (`nil` has none; returning `null` there
mirrors reading a field off a missing record, which no translated code path
does). -/
def condition : DecisionTree → Expr
  | nil => .nullLit
  | node c _ _ => c

def trueBranch : DecisionTree → DecisionTree
  | nil => nil
  | node _ t _ => t

def falseBranch : DecisionTree → DecisionTree
  | nil => nil
  | node _ _ f => f

end DecisionTree

/--
Modelled from the spec: `makeDecisionTree` of `../utils/decisionTree` (not
under `src/`), spec section 4.1: `a ? b : c` → `{cond a, true T(b), false
T(c)}`; `a && b` → `{cond a, true T(b), false leaf(falsy)}`; `a || b` →
`{cond a, true leaf(truthy), false T(b)}`.  The falsy/truthy short-circuit
outcome of a logical expression is represented by an absent branch, which the
Chain Constructor's falsy-branch precondition accepts (spec section 4.3); a
represented `true`-literal leaf instead would make the `delete` carve-out and
the `||` candidates of the driver unrecognizable.
-/
def makeDecisionTree : Expr → DecisionTree
  | .cond t c a => .node t (makeDecisionTree c) (makeDecisionTree a)
  | .logical "&&" l r => .node l (makeDecisionTree r) .nil
  | .logical "||" l r => .node l .nil (makeDecisionTree r)
  | e => .node e .nil .nil

/--
Modelled from the spec: the condition-splitting part of
`makeDecisionTreeWithConditionSplitting` (spec section 4.1): compound
conditions containing nested logical operators are recursively split so every
node carries one atomic comparison: `l && r ? T : F` becomes
`l ? (r ? T : F) : F` and `l || r ? T : F` becomes `l ? T : (r ? T : F)`.
The branches passed in are already split.
-/
def splitCondition : Expr → DecisionTree → DecisionTree → DecisionTree
  | .logical "&&" l r, t, f => splitCondition l (splitCondition r t f) f
  | .logical "||" l r, t, f => splitCondition l t (splitCondition r t f)
  | c, t, f => .node c t f

/-- Modelled from the spec: `makeDecisionTreeWithConditionSplitting` of
`../utils/decisionTree` (not under `src/`) — split every node's compound
condition, recursing into the branches. -/
def makeDecisionTreeWithConditionSplitting : DecisionTree → DecisionTree
  | .nil => .nil
  | .node c t f =>
    splitCondition c (makeDecisionTreeWithConditionSplitting t)
      (makeDecisionTreeWithConditionSplitting f)

/-- Modelled from the spec: `negateDecisionTree` of `../utils/decisionTree`
(not under `src/`), spec section 4.2 — negate every condition and swap the
branches at every level (De Morgan). -/
def negateDecisionTree : DecisionTree → DecisionTree
  | .nil => .nil
  | .node c t f =>
    .node (negateCondition c) (negateDecisionTree f) (negateDecisionTree t)

end Wakaru

namespace Wakaru

/--
The mutable state that the source keeps in module scope: the `transformed`
flag (line 24, "a dirty global variable" set by every genuine optional
substitution) and, standing in for the `removeDeclarationIfUnused` scope
utility of `@wakaru/ast-utils/scope` (not under `src/`), the list of names
submitted to it, in call order.  Modelled from the spec: the Scope Cleaner
"removes its declaration iff no references remain"; the embedded document
holds plain expressions and no declarations, so the cleaner is modelled as
recording the requested names.
-/
structure TState where
  transformed : Bool
  removals : List String
deriving DecidableEq, Repr

/-- The initial state of one attempt: flag clear, no removal requests. -/
def TState.init : TState := { transformed := false, removals := [] }

/--
`j(condition).find(j.AssignmentExpression, { left: { type: 'Identifier' } })`:
collect, in pre-order (ast-types visitors fire on the root node too and then
traverse the children in field order), every assignment expression whose left
side is a plain identifier.
-/
def findIdentAssignments : Expr → List Expr
  | .member o p _ => findIdentAssignments o ++ findIdentAssignments p
  | .optMember o p _ => findIdentAssignments o ++ findIdentAssignments p
  | .call c a => findIdentAssignments c ++ findIdentAssignments a
  | .optCall c a => findIdentAssignments c ++ findIdentAssignments a
  | .binary _ l r => findIdentAssignments l ++ findIdentAssignments r
  | .logical _ l r => findIdentAssignments l ++ findIdentAssignments r
  | .cond t c a =>
    findIdentAssignments t ++ findIdentAssignments c ++ findIdentAssignments a
  | .assign op l r =>
    (if l.isIdent then [.assign op l r] else [])
      ++ findIdentAssignments l ++ findIdentAssignments r
  | .unary _ a _ => findIdentAssignments a
  | .seq es => findIdentAssignments es
  | .arrayLit es => findIdentAssignments es
  | .spreadElem a => findIdentAssignments a
  | .argsCons h t => findIdentAssignments h ++ findIdentAssignments t
  | _ => []

/-- Modelled from the spec: `smartParenthesized` of ast-utils wraps an
expression in parentheses "to ensure the precedence"; parenthesization is a
formatting concern with no structural counterpart in this embedding, so it is
the identity. -/
def smartParenthesized (e : Expr) : Expr := e

/-- Termination measure for `applyOptionalChaining`: structural size, except
that an array hole weighs more than the bare identifier (`undefined`) that the
`apply` branch substitutes for it before recursing, and call nodes carry one
extra unit so that the helper processing a call's parts fits strictly below
the call node itself. -/
def Expr.msize : Expr → Nat
  | .ident _ => 1
  | .nullLit => 1
  | .numLit _ => 1
  | .strLit _ => 1
  | .boolLit _ => 1
  | .member o p _ => 1 + o.msize + p.msize
  | .optMember o p _ => 1 + o.msize + p.msize
  | .call c a => 2 + c.msize + a.msize
  | .optCall c a => 2 + c.msize + a.msize
  | .binary _ l r => 1 + l.msize + r.msize
  | .logical _ l r => 1 + l.msize + r.msize
  | .cond t c a => 1 + t.msize + c.msize + a.msize
  | .assign _ l r => 1 + l.msize + r.msize
  | .unary _ a _ => 1 + a.msize
  | .seq es => 1 + es.msize
  | .arrayLit es => 1 + es.msize
  | .spreadElem a => 1 + a.msize
  | .hole => 2
  | .argsNil => 1
  | .argsCons h t => 1 + h.msize + t.msize

end Wakaru

namespace Wakaru

/-- Selector for the three mutually recursive walks of the Expression
Rewriter, packed into one structurally recursive function so that it reduces
definitionally: `one` is `applyOptionalChaining` itself, `list` the generic
argument map, `fillList` the hole-filling element map of the `apply`
branches. -/
inductive ApplyMode where
  | one
  | list
  | fillList
deriving DecidableEq, Repr

set_option maxHeartbeats 2000000 in
/-- The packed body of the Expression Rewriter; see `applyOptionalChaining`,
`applyOptionalChainingArgs` and `applyOptionalChainingFillArgs` for the
documented wrappers. -/
def applyOptionalChainingAux (mode : ApplyMode) (st : TState)
    (node tempVariable : Expr) (targetExpression : Option Expr) : TState × Expr :=
  match mode with
  | .one =>
      match node with
      | .member obj prop computed =>
        -- lines 202-215; a MemberExpression that is not rewritten falls through
        -- the remaining checks unchanged and is returned with its object replaced
        if obj = tempVariable then
          let object := match targetExpression with
            | some tg => smartParenthesized tg
            | none => obj
          ({ st with transformed := true }, .optMember object prop computed)
        else
          let (st1, obj') := applyOptionalChainingAux .one st obj tempVariable targetExpression
          (st1, .member obj' prop computed)
      | .optMember obj prop computed =>
        -- `j.MemberExpression.check` also accepts an OptionalMemberExpression
        if obj = tempVariable then
          let object := match targetExpression with
            | some tg => smartParenthesized tg
            | none => obj
          ({ st with transformed := true }, .optMember object prop computed)
        else
          let (st1, obj') := applyOptionalChainingAux .one st obj tempVariable targetExpression
          (st1, .optMember obj' prop computed)
      | nd@(.call callee args) | nd@(.optCall callee args) =>
        -- lines 217-336; `isOpt` records the node's kind for the rebuild at lines
        -- 329-335, `nd` is the node itself for the `return node` paths
        let isOpt : Bool := match nd with | .optCall .. => true | _ => false
        -- lines 218-301: the callee is a (possibly optional) member expression
        let memberBranch : Option (TState × Expr) :=
          match callee, args with
          | .member cObj cProp _, argsA | .optMember cObj cProp _, argsA =>
            -- guard of line 219: callee.object a member expression and
            -- callee.property an identifier
            let guardA : Option (TState × Expr) :=
          match cObj, cProp, argsA with
          | .member bObj bProp bComp, .ident pname, argsB =>
            -- `applyOptionalChaining st cObj …` (used by the `call` and
            -- `apply` branches): cObj is the member expression
            -- `bObj.bProp`, so one step of the rewriter's member case is
            -- taken here (lines 202-215), leaving recursion on direct parts
            let (stCo, coApplied) :=
              if bObj = tempVariable then
                let object := match targetExpression with
                  | some tg => smartParenthesized tg
                  | none => bObj
                ({ st with transformed := true }, Expr.optMember object bProp bComp)
              else
                let (st1, o') :=
                  applyOptionalChainingAux .one st bObj tempVariable targetExpression
                (st1, Expr.member o' bProp bComp)
            -- lines 220-235: `obj.m.call(token, …args)` → `obj.m?.(…args)`
            let branchCall : Option (TState × Expr) :=
              match argsB with
              | .argsCons a0 rest =>
                if pname = "call" && a0 = tempVariable then
                  let (st2, rest') :=
                    applyOptionalChainingAux .list stCo rest tempVariable targetExpression
                  some ({ st2 with transformed := true }, .optCall coApplied rest')
                else none
              | _ => none
            -- lines 237-252: `obj.m.apply(token, argsArrayOrExpr)` →
            -- `obj.m?.(…)`; the source checks the second argument for a
            -- spread first, then for an array literal
            let branchApply : Option (TState × Expr) :=
              if pname = "apply" then
                match argsB with
                | .argsCons _ (.argsCons (.spreadElem _) _) => some (st, nd)
                | .argsCons _ (.argsCons (.arrayLit elems) _) =>
                  let (st2, args') :=
                    applyOptionalChainingAux .fillList stCo elems tempVariable
                      targetExpression
                  some ({ st2 with transformed := true }, .optCall coApplied args')
                | .argsCons _ (.argsCons arg _) =>
                  some ({ stCo with transformed := true },
                    .optCall coApplied (.argsCons (.spreadElem arg) .argsNil))
                | _ => some (st, nd)  -- missing second argument: the source throws
              else none
            -- lines 254-268: `obj.m.bind(token)` → optional member access
            let branchBind : Option (TState × Expr) :=
              match argsB with
              | .argsCons a0 _ =>
                if pname = "bind" && a0 = tempVariable then
                  let isOptional :=
                    !(match bObj with | .assign .. => true | _ => false)
                  let (st1, o') :=
                    applyOptionalChainingAux .one st bObj tempVariable targetExpression
                  let (st2, p') :=
                    applyOptionalChainingAux .one st1 bProp tempVariable targetExpression
                  let result := if isOptional then Expr.optMember o' p' bComp
                                else Expr.member o' p' bComp
                  some
                    ((if isOptional then { st2 with transformed := true } else st2),
                      result)
                else none
              | _ => none
            branchCall <|> branchApply <|> branchBind
          | .optMember bObj bProp bComp, .ident pname, argsB =>
            -- identical to the previous arm except that cObj is an
            -- OptionalMemberExpression, so the unchanged-object rebuild of
            -- the inlined member step keeps that kind
            let (stCo, coApplied) :=
              if bObj = tempVariable then
                let object := match targetExpression with
                  | some tg => smartParenthesized tg
                  | none => bObj
                ({ st with transformed := true }, Expr.optMember object bProp bComp)
              else
                let (st1, o') :=
                  applyOptionalChainingAux .one st bObj tempVariable targetExpression
                (st1, Expr.optMember o' bProp bComp)
            let branchCall : Option (TState × Expr) :=
              match argsB with
              | .argsCons a0 rest =>
                if pname = "call" && a0 = tempVariable then
                  let (st2, rest') :=
                    applyOptionalChainingAux .list stCo rest tempVariable targetExpression
                  some ({ st2 with transformed := true }, .optCall coApplied rest')
                else none
              | _ => none
            let branchApply : Option (TState × Expr) :=
              if pname = "apply" then
                match argsB with
                | .argsCons _ (.argsCons (.spreadElem _) _) => some (st, nd)
                | .argsCons _ (.argsCons (.arrayLit elems) _) =>
                  let (st2, args') :=
                    applyOptionalChainingAux .fillList stCo elems tempVariable
                      targetExpression
                  some ({ st2 with transformed := true }, .optCall coApplied args')
                | .argsCons _ (.argsCons arg _) =>
                  some ({ stCo with transformed := true },
                    .optCall coApplied (.argsCons (.spreadElem arg) .argsNil))
                | _ => some (st, nd)  -- missing second argument: the source throws
              else none
            let branchBind : Option (TState × Expr) :=
              match argsB with
              | .argsCons a0 _ =>
                if pname = "bind" && a0 = tempVariable then
                  let isOptional :=
                    !(match bObj with | .assign .. => true | _ => false)
                  let (st1, o') :=
                    applyOptionalChainingAux .one st bObj tempVariable targetExpression
                  let (st2, p') :=
                    applyOptionalChainingAux .one st1 bProp tempVariable targetExpression
                  let result := if isOptional then Expr.optMember o' p' bComp
                                else Expr.member o' p' bComp
                  some
                    ((if isOptional then { st2 with transformed := true } else st2),
                      result)
                else none
              | _ => none
            branchCall <|> branchApply <|> branchBind
          | _, _, _ => none
        -- lines 271-300: the callee's object itself equals the token
            let guardB : Option (TState × Expr) :=
              if cObj = tempVariable then
                match cProp, argsA with
                | .ident "call", argsC =>
                  -- lines 273-281 (no first-argument check here);
                  -- `arguments.slice(1)` of a shorter list is empty
                  match targetExpression, argsC with
                  | some tg, .argsCons _ rest =>
                    let (st1, rest') :=
                      applyOptionalChainingAux .list st rest tempVariable targetExpression
                    some ({ st1 with transformed := true }, .optCall tg rest')
                  | some tg, _ =>
                    some ({ st with transformed := true }, .optCall tg .argsNil)
                  | none, _ => some (st, nd)  -- the source throws (undefined callee)
                | .ident "apply", argsC =>
                  -- lines 283-298
                  match targetExpression, argsC with
                  | _, .argsCons _ (.argsCons (.spreadElem _) _) => some (st, nd)
                  | some tg, .argsCons _ (.argsCons (.arrayLit elems) _) =>
                    let (st1, args') :=
                      applyOptionalChainingAux .fillList st elems tempVariable
                        targetExpression
                    some ({ st1 with transformed := true }, .optCall tg args')
                  | some tg, .argsCons _ (.argsCons arg _) =>
                    some ({ st with transformed := true },
                      .optCall tg (.argsCons (.spreadElem arg) .argsNil))
                  | none, .argsCons _ (.argsCons _ _) => some (st, nd)  -- the source throws
                  | _, _ => some (st, nd)  -- missing second argument: the source throws
                | _, _ => none
              else none
            guardA <|> guardB
          | _, _ => none
        match memberBranch with
        | some res => res
        | none =>
          -- lines 303-321: the `(0, token)(…)` comma-guard idiom
          let seqBranch : Option (TState × Expr) :=
            match callee, args with
            | .seq (.argsCons e0 (.argsCons e1 .argsNil)), argsD =>
              if (match e0 with | .numLit 0 => true | _ => false) && e1 = tempVariable
              then
                let target := targetExpression.getD e1
                let callee' :=
                  smartParenthesized
                    (.seq (.argsCons (.numLit 0) (.argsCons target .argsNil)))
                let (st1, args') :=
                  applyOptionalChainingAux .list st argsD tempVariable targetExpression
                some ({ st1 with transformed := true }, .optCall callee' args')
              else none
            | _, _ => none
          match seqBranch with
          | some res => res
          | none =>
            -- lines 323-327: a plain call whose callee equals the token
            if callee = tempVariable then
              let st1 := { st with transformed := true }
              let target := targetExpression.getD callee
              (st1, .optCall target args)
            else
              -- lines 329-335: rebuild, preserving optionality
              let (st1, callee') :=
                applyOptionalChainingAux .one st callee tempVariable targetExpression
              let (st2, args') :=
                applyOptionalChainingAux .list st1 args tempVariable targetExpression
              (st2, if isOpt then .optCall callee' args' else .call callee' args')
      | .assign op l r =>
        -- lines 338-348, then the node is returned (the remaining checks do not
        -- fire for an assignment)
        match targetExpression with
        | some tg =>
          if l = tempVariable then
            -- `node.right === targetExpression` is object identity in the source;
            -- structural equality is its counterpart in this embedding
            if r = tg then (st, tg)
            else if tg.isMemberKindType || tg.isPatternKindType then
              (st, .assign op tg r)
            else (st, .assign op l r)
          else (st, .assign op l r)
        | none => (st, .assign op l r)
      | .ident n =>
        -- line 350
        match targetExpression with
        | some tg =>
          if Expr.ident n = tempVariable then (st, smartParenthesized tg)
          else (st, .ident n)
        | none => (st, .ident n)
      | .unary op a pfx =>
        -- lines 354-357
        let (st1, a') := applyOptionalChainingAux .one st a tempVariable targetExpression
        (st1, .unary op a' pfx)
      | e => (st, e)

  | .list =>
      match node with
      | .argsCons a rest =>
        let (st1, a') := if a.isSpread then (st, a)
                         else applyOptionalChainingAux .one st a tempVariable targetExpression
        let (st2, rest') :=
          applyOptionalChainingAux .list st1 rest tempVariable targetExpression
        (st2, .argsCons a' rest')
      | e => (st, e)

  | .fillList =>
      match node with
      | .argsCons a rest =>
        let (st1, a') :=
          match a with
          | .hole =>
            -- `applyOptionalChaining st (.ident "undefined") tempVariable
            -- targetExpression`, unfolded (line 350)
            match targetExpression with
            | some tg =>
              if Expr.ident "undefined" = tempVariable then (st, smartParenthesized tg)
              else (st, Expr.ident "undefined")
            | none => (st, Expr.ident "undefined")
          | a2 =>
            if a2.isSpread then (st, a2)
            else applyOptionalChainingAux .one st a2 tempVariable targetExpression
        let (st2, rest') :=
          applyOptionalChainingAux .fillList st1 rest tempVariable targetExpression
        (st2, .argsCons a' rest')
      | e => (st, e)
termination_by structural node

/--
`applyOptionalChaining` (source lines 194-360): deep-substitute the token
`tempVariable` inside `node` — member accesses on the token become optional
member accesses on the target, and the desugared `.call` / `.apply` / `.bind`
and comma-guard call idioms are rewritten to optional-call syntax.  The
source's call-expression body (lines 217-336) is inlined in the call arm of
`applyOptionalChainingAux`; the sequential guards are `Option`-valued locals
combined with `<|>`, mirroring the source's if-chains with fall-through.  The
global `transformed` flag and the scope-cleaner calls are threaded through
`TState`; `areNodesEqual` is structural equality of `Expr`.  In two corners
(a `call`/`apply` rewrite at lines 274/291 with no `targetExpression`, and an
`apply` call missing its second argument) the source feeds `undefined` to an
ast-types builder, which throws; this embedding is total and returns the node
unchanged there, and no claim depends on those corners.
-/
def applyOptionalChaining (st : TState) (node tempVariable : Expr)
    (targetExpression : Option Expr) : TState × Expr :=
  applyOptionalChainingAux .one st node tempVariable targetExpression

/-- `args.map(arg => j.SpreadElement.check(arg) ? arg : applyOptionalChaining(j,
arg, tempVariable, targetExpression))` over an argument chain, threading the
state left to right. -/
def applyOptionalChainingArgs (st : TState) (args tempVariable : Expr)
    (targetExpression : Option Expr) : TState × Expr :=
  applyOptionalChainingAux .list st args tempVariable targetExpression

/--
The `apply` branches' two consecutive maps over an array literal's elements
(`arg.elements.map(element => element ?? j.identifier('undefined'))` at lines
241-243/287-289, then the generic spread-preserving rewrite map at lines
246-248/292-294) fused into one walk over the element chain.  For a hole the
filled-in element is the bare identifier `undefined`, on which the rewriter
runs only its line-350 check; that check is spelled out in the `fillList` arm
(instead of a recursive call on the freshly built identifier) so the
recursion stays structural.
-/
def applyOptionalChainingFillArgs (st : TState) (elems tempVariable : Expr)
    (targetExpression : Option Expr) : TState × Expr :=
  applyOptionalChainingAux .fillList st elems tempVariable targetExpression

end Wakaru

namespace Wakaru

/-- `isFalsyBranch` (source lines 362-370): an absent tree is falsy; a node is
falsy when its condition is `null`/`undefined` and both branches are falsy or
absent. -/
def isFalsyBranch : DecisionTree → Bool
  | .nil => true
  | .node c t f => (c.isNull || c.isUndefined) && isFalsyBranch t && isFalsyBranch f

/-- `getDeepestFalseBranch` (source lines 372-377): follow `falseBranch` links
to the last node that has none. -/
def getDeepestFalseBranch : DecisionTree → DecisionTree
  | .nil => .nil
  | .node c t .nil => .node c t .nil
  | .node _ _ (.node fc ft ff) => getDeepestFalseBranch (.node fc ft ff)

/-- The precondition gate of `constructOptionalChaining` (source lines
95-103): the true branch must be entirely falsy, except that when the deepest
false branch's condition is a `delete` unary expression a `true`-literal true
branch is also accepted. -/
def falsyGate (tree : DecisionTree) : Bool :=
  match tree with
  | .nil => true
  | .node _ tb _ =>
    match tb, (getDeepestFalseBranch tree).condition with
    | .node tc tt tf, .unary "delete" _ _ =>
      isFalsyBranch (.node tc tt tf) || tc.isTrue
    | tb, _ => isFalsyBranch tb

/-- The names submitted to the Scope Cleaner for a list of identifier-left
assignments (source lines 123-127 and 149-153). -/
def assignedNames (assignments : List Expr) : List String :=
  assignments.filterMap fun a =>
    match a with
    | .assign _ (.ident n) _ => some n
    | _ => none

/-- The fold of source lines 117-121 and 143-147: fold every collected
assignment `tmp = original` into the accumulator via the Expression Rewriter,
threading the transformed flag. -/
def foldAssignments (st : TState) (start : Expr) (assignments : List Expr) :
    TState × Expr :=
  assignments.foldl
    (fun acc curr =>
      match curr with
      | .assign _ l r => applyOptionalChaining acc.1 acc.2 l (some r)
      | _ => acc)
    (st, start)

/--
`constructOptionalChaining` (source lines 87-192).  `flag` is the two-value
mode (0: seeking a null check, 1: null detected, seeking undefined).  The
global `transformed` flag and the scope-cleaner submissions are threaded
through `TState`; `none` is the source's `null` return.  The source is never
called on an absent tree, so `nil` yields `none`.
-/
def constructOptionalChaining (st : TState) (tree : DecisionTree) (flag : Nat) :
    TState × Option Expr :=
  match tree with
  | .nil => (st, none)
  | .node condition trueBranch falseBranch =>
    -- lines 94-103: the falsy-branch precondition (with the `delete` carve-out)
    if !falsyGate (.node condition trueBranch falseBranch) then (st, none)
    else if flag = 0 then
      match falseBranch with
      | .nil =>
        -- lines 110-129: leaf with no further comparison
        let nestedAssignment := findIdentAssignments condition
        let allAssignment := nestedAssignment ++
          (match condition with
           | .assign op (.ident n) r => [Expr.assign op (.ident n) r]
           | _ => [])
        let (st1, result) := foldAssignments st condition allAssignment
        let st2 := { st1 with removals := st1.removals ++ assignedNames allAssignment }
        (st2, some result)
      | .node fc ft ff =>
        let fb := DecisionTree.node fc ft ff
        -- lines 132-163: the null-comparison branch.  `step1` is `Sum.inl`
        -- when the branch returned, `Sum.inr st'` when control fell through
        -- with the state left by the recursion at line 137 (the `transformed`
        -- flag and scope-cleaner calls are global in the source, so their
        -- effects persist across the fall-through)
        let step1 : (TState × Option Expr) ⊕ TState :=
          match condition with
          | .binary op l r =>
            if (op = "==" || op = "===") && (l.isNull || r.isNull) then
              let nonNullExpr := if l.isNull then r else l
              let nextFlag := if op = "==" then 0 else 1
              match constructOptionalChaining st fb nextFlag with
              | (st1, none) => Sum.inl (st1, none)
              | (st1, some cnd) =>
                match nonNullExpr with
                | .assign aop (.ident an) ar =>
                  -- lines 140-155
                  let nne := Expr.assign aop (.ident an) ar
                  let nestedAssignment := findIdentAssignments nne
                  let allAssignment := nne :: nestedAssignment
                  let (st2, result) := foldAssignments st1 cnd allAssignment
                  let st3 :=
                    { st2 with removals := st2.removals ++ assignedNames allAssignment }
                  Sum.inl (st3, some result)
                | _ =>
                  -- lines 157-162: the separate Identifier and MemberExpression
                  -- arms call the rewriter identically
                  if l.isIdent || l.isMemberLike then
                    let (st2, result) := applyOptionalChaining st1 cnd l none
                    Sum.inl (st2, some result)
                  else Sum.inr st1
            else Sum.inr st
          | _ => Sum.inr st
        match step1 with
        | Sum.inl res => res
        | Sum.inr stA =>
          -- lines 165-180 (the false branch is present here)
          match constructOptionalChaining stA fb 0 with
          | (st1, none) => (st1, none)
          | (st1, some cnd) =>
            match condition with
            | .binary op l r =>
              if (op = "==" || op = "===") && (l.isNull || r.isNull) then
                let id := if l.isNull then r else l
                if id.isIdent || id.isMemberLike then
                  -- lines 172-174: `transformed` is set unconditionally here
                  let (st2, result) := applyOptionalChaining st1 cnd id none
                  ({ st2 with transformed := true }, some result)
                else
                  -- lines 178-179
                  let (st2, result) :=
                    applyOptionalChaining st1 cnd (.binary op l r) none
                  (st2, some (.logical "||" (.binary op l r) result))
              else
                let (st2, result) :=
                  applyOptionalChaining st1 cnd (.binary op l r) none
                (st2, some (.logical "||" (.binary op l r) result))
            | c =>
              let (st2, result) := applyOptionalChaining st1 cnd c none
              (st2, some (.logical "||" c result))
    else if flag = 1 then
      -- lines 182-189
      match falseBranch with
      | .nil => (st, none)
      | .node fc ft ff =>
        if condition.isUndefinedBinary then
          constructOptionalChaining st (.node fc ft ff) 0
        else (st, none)
    else (st, none)

/--
`convertOptionalChaining` (source lines 65-85): reset the per-attempt
`transformed` flag, build and split the decision tree, normalize a strict
not-null root by negation, run the Chain Constructor, and accept the result
only if a genuine substitution occurred and the result differs from the node
(the source's `path.node === _result` is object identity; structural equality
is its counterpart here).  `mergeComments` has no counterpart because comments
are not represented.
-/
def convertOptionalChaining (expression : Expr) : Option Expr :=
  let st0 : TState := TState.init
  let dt0 := makeDecisionTreeWithConditionSplitting (makeDecisionTree expression)
  let isNotNull := dt0.condition.isNotNullBinary
  let decisionTree := if isNotNull then negateDecisionTree dt0 else dt0
  match constructOptionalChaining st0 decisionTree 0 with
  | (st1, some r) =>
    if !st1.transformed || r = expression then none
    else some (if isNotNull then negateCondition r else r)
  | (_, none) => none

end Wakaru

namespace Wakaru

/-- `PropertyInfo` of the nullish-coalescing analyzer module: one property in
a chain. -/
structure PropertyInfo where
  propertyName : String
  computed : Bool
deriving DecidableEq, Repr

/-- `VarAssignment` of the nullish-coalescing analyzer module: one variable
assignment in a chain. -/
structure VarAssignment where
  varName : String
  parent : Option String
  source : Expr
  properties : List PropertyInfo
deriving DecidableEq, Repr

/-- The analyzer's `Map<string, VarAssignment>`: an association list with the
JavaScript `Map` semantics — `set` of an existing key updates the value in
place (keeping the original insertion position), otherwise appends. -/
abbrev VarMap := List (String × VarAssignment)

def mapHas (m : VarMap) (k : String) : Bool := m.any (·.1 = k)

def mapGet (m : VarMap) (k : String) : Option VarAssignment :=
  (m.find? (·.1 = k)).map (·.2)

def mapSet (m : VarMap) (k : String) (v : VarAssignment) : VarMap :=
  if mapHas m k then m.map (fun p => if p.1 = k then (k, v) else p)
  else m ++ [(k, v)]

/-- Modelled from the spec: `j(property).toSource()` — the jscodeshift
printer, used by the analyzer only to name a non-identifier property.  A
minimal total renderer of this embedding's nodes stands in for it. -/
def toSource : Expr → String
  | .ident n => n
  | .nullLit => "null"
  | .numLit n => toString n
  | .strLit s => "\"" ++ s ++ "\""
  | .boolLit b => if b then "true" else "false"
  | .member o p c =>
    toSource o ++ (if c then "[" ++ toSource p ++ "]" else "." ++ toSource p)
  | .optMember o p c =>
    toSource o ++ (if c then "?.[" ++ toSource p ++ "]" else "?." ++ toSource p)
  | .call c a => toSource c ++ "(" ++ toSource a ++ ")"
  | .optCall c a => toSource c ++ "?.(" ++ toSource a ++ ")"
  | .binary op l r => toSource l ++ " " ++ op ++ " " ++ toSource r
  | .logical op l r => toSource l ++ " " ++ op ++ " " ++ toSource r
  | .cond t c a => toSource t ++ " ? " ++ toSource c ++ " : " ++ toSource a
  | .assign op l r => toSource l ++ " " ++ op ++ " " ++ toSource r
  | .unary op a pfx => if pfx then op ++ " " ++ toSource a else toSource a ++ op
  | .seq es => "(" ++ toSource es ++ ")"
  | .arrayLit es => "[" ++ toSource es ++ "]"
  | .spreadElem a => "..." ++ toSource a
  | .hole => ""
  | .argsNil => ""
  | .argsCons h .argsNil => toSource h
  | .argsCons h t => toSource h ++ ", " ++ toSource t

/-- `isValidIdentifier` (source lines 662-665): the regex
`^[a-zA-Z_$][a-zA-Z0-9_$]*$` over ASCII. -/
def isValidIdentStart (c : Char) : Bool := c.isAlpha || c = '_' || c = '$'

def isValidIdentChar (c : Char) : Bool := c.isAlphanum || c = '_' || c = '$'

def isValidIdentifier (str : String) : Bool :=
  match str.toList with
  | [] => false
  | c :: cs => isValidIdentStart c && cs.all isValidIdentChar

/-- `extractLogicalOrConditions` (source lines 481-486): flatten a `||` chain
into the list of its atomic conditions, left to right. -/
def extractLogicalOrConditions : Expr → List Expr
  | .logical "||" l r => extractLogicalOrConditions l ++ extractLogicalOrConditions r
  | e => [e]

/-- One iteration of the `for` loop of `analyzeConditions` (source lines
501-568), mapping the running `(rootVar, varMap)` through one condition. -/
def analyzeConditionsStep (acc : Option String × VarMap) (condition : Expr) :
    Option String × VarMap :=
  match condition with
  | .binary op l r =>
    -- lines 507-511: skip if not a null/undefined check
    if !((op = "==" || op = "===" || op = "!=" || op = "!==") &&
         (l.isNull || r.isNull || l.isUndefined || r.isUndefined)) then acc
    else
      -- line 514: the non-null part of the expression
      let expr := if l.isNull || l.isUndefined then r else l
      -- lines 517-525: direct variable check, e.g. `null == r`
      let (rootVar, varMap) :=
        match expr, acc.1 with
        | .ident n, none =>
          (some n,
            mapSet acc.2 n
              { varName := n, parent := none, source := .ident n, properties := [] })
        | _, _ => acc
      -- lines 528-567: property assignment, e.g. `null === (n = r.app_info)`
      match expr with
      | .assign _ (.ident assignedVar) sourceExpr =>
        match sourceExpr with
        | .member objExpr property computed | .optMember objExpr property computed =>
          -- lines 537-549 (`j.MemberExpression.check` accepts both kinds)
          let (rootVar, varMap) :=
            match objExpr, rootVar with
            | .ident pv, none =>
              if !(mapHas varMap pv) then
                (some pv,
                  mapSet varMap pv
                    { varName := pv, parent := none, source := objExpr,
                      properties := [] })
              else (rootVar, varMap)
            | _, _ => (rootVar, varMap)
          let parentVar : Option String :=
            match objExpr with | .ident pv => some pv | _ => none
          -- lines 552-554
          let propertyName :=
            match property with | .ident pn => pn | p => toSource p
          -- lines 557-565
          (rootVar,
            mapSet varMap assignedVar
              { varName := assignedVar, parent := parentVar, source := sourceExpr,
                properties := [{ propertyName := propertyName, computed := computed }] })
        | _ => (rootVar, varMap)
      | _ => (rootVar, varMap)
  | _ => acc

/-- `analyzeConditions` (source lines 491-572). -/
def analyzeConditions (conditions : List Expr) : Option String × VarMap :=
  conditions.foldl analyzeConditionsStep (none, [])

/--
The back-tracing `while` loop of `buildOptionalChain` (source lines 606-617):
walk from a variable through the `parent` links, prepending each variable's
properties (`unshift` on each element of `properties`, in order).  The source
loop does not terminate on a cyclic parent chain; on an acyclic chain — which
every claim input produces — each step consumes a distinct map key, so
`varMap.length + 1` units of fuel are enough and the fuel never runs out.
-/
def traceBack (varMap : VarMap) : Nat → String → List PropertyInfo → List PropertyInfo
  | 0, _, chain => chain
  | fuel + 1, currentVar, chain =>
    match mapGet varMap currentVar with
    | none => chain
    | some varInfo =>
      let chain := varInfo.properties.foldl (fun c p => p :: c) chain
      match varInfo.parent with
      | some pv => if pv = "" then chain else traceBack varMap fuel pv chain
      | none => chain

/-- `buildOptionalChain` (source lines 577-643): build
`root?.p1?.p2?…?.pn` from the root variable, the assignment map and the final
member access. -/
def buildOptionalChain (rootVar : String) (varMap : VarMap) (finalAccess : Expr) :
    Option Expr :=
  -- lines 584-619: extract the property chain
  let propertyChain : List PropertyInfo :=
    match finalAccess with
    | .member obj prop computed | .optMember obj prop computed =>
      match obj with
      | .ident objName =>
        if mapHas varMap objName then
          let finalProp : PropertyInfo :=
            match prop with
            | .ident pn => { propertyName := pn, computed := computed }
            | p => { propertyName := toSource p, computed := computed }
          traceBack varMap (varMap.length + 1) objName [finalProp]
        else []
      | _ => []
    | _ => []
  -- lines 621-642
  if propertyChain.length > 0 then
    some (propertyChain.foldl
      (fun expr pinfo =>
        let property :=
          if pinfo.computed || !(isValidIdentifier pinfo.propertyName)
          then Expr.strLit pinfo.propertyName
          else Expr.ident pinfo.propertyName
        Expr.optMember expr property pinfo.computed)
      (Expr.ident rootVar))
  else none

/-- `cleanupTemporaryVariables` (source lines 648-657): every key of the map
is handed to `removeDeclarationIfUnused`; the list of names, in map insertion
order, represents those calls. -/
def cleanupTemporaryVariables (varMap : VarMap) : List String :=
  varMap.map (·.1)

/--
`analyzeOptionalChain` (source lines 417-476): the shape-exact recognizer for
`null !== (t = cond) && void 0 !== t ? t : fallback`.  On success the source
replaces the node with `root?.…?.pn ?? fallback` and hands every consumed
temporary to the Scope Cleaner; the returned pair is that expression together
with the submitted names.  Every failed check is the source's `return null`.
-/
def analyzeOptionalChain (node : Expr) : Option (Expr × List String) :=
  match node with
  | .cond test consequent alternate =>
    -- lines 427-428
    match test with
    | .logical "&&" mainAssignmentCheck _ =>
      -- lines 432-438
      match mainAssignmentCheck with
      | .binary mop mLeft mRight =>
        if !((mop = "!==" || mop = "!=") && mLeft.isNull) then none
        else
          match mRight with
          | .assign _ (.ident tname) assignRight =>
            -- lines 440-444
            match consequent with
            | .ident cname =>
              if tname ≠ cname then none
              else
                -- lines 446-454
                match assignRight with
                | .cond nTest nCons nAlt =>
                  if !nCons.isUndefined then none
                  else if !nAlt.isMemberLike then none
                  else
                    -- lines 456-475
                    let orConditions := extractLogicalOrConditions nTest
                    match analyzeConditions orConditions with
                    | (some rv, varMap) =>
                      match buildOptionalChain rv varMap nAlt with
                      | some finalExpr =>
                        some (Expr.logical "??" finalExpr alternate,
                          cleanupTemporaryVariables varMap)
                      | none => none
                    | (none, _) => none
                | _ => none
            | _ => none
          | _ => none
      | _ => none
    | _ => none
  | _ => none

end Wakaru

namespace Wakaru

/-- A position in the document tree: the list of child indices from the root
(children are numbered in ast-types field order, the same order the visitors
traverse). -/
abbrev Pos := List Nat

/-- The subtree of `e` at position `p`, if the position is valid. -/
def getAt (e : Expr) (p : Pos) : Option Expr :=
  match p, e with
  | [], e => some e
  | 0 :: rest, .member o _ _ => getAt o rest
  | 1 :: rest, .member _ pr _ => getAt pr rest
  | 0 :: rest, .optMember o _ _ => getAt o rest
  | 1 :: rest, .optMember _ pr _ => getAt pr rest
  | 0 :: rest, .call c _ => getAt c rest
  | 1 :: rest, .call _ a => getAt a rest
  | 0 :: rest, .optCall c _ => getAt c rest
  | 1 :: rest, .optCall _ a => getAt a rest
  | 0 :: rest, .binary _ l _ => getAt l rest
  | 1 :: rest, .binary _ _ r => getAt r rest
  | 0 :: rest, .logical _ l _ => getAt l rest
  | 1 :: rest, .logical _ _ r => getAt r rest
  | 0 :: rest, .cond t _ _ => getAt t rest
  | 1 :: rest, .cond _ c _ => getAt c rest
  | 2 :: rest, .cond _ _ a => getAt a rest
  | 0 :: rest, .assign _ l _ => getAt l rest
  | 1 :: rest, .assign _ _ r => getAt r rest
  | 0 :: rest, .unary _ a _ => getAt a rest
  | 0 :: rest, .seq es => getAt es rest
  | 0 :: rest, .arrayLit es => getAt es rest
  | 0 :: rest, .spreadElem a => getAt a rest
  | 0 :: rest, .argsCons h _ => getAt h rest
  | 1 :: rest, .argsCons _ t => getAt t rest
  | _, _ => none

/-- Replace the subtree of `e` at position `p` by `v` (an invalid position
leaves the tree unchanged). -/
def setAt (e : Expr) (p : Pos) (v : Expr) : Expr :=
  match p, e with
  | [], _ => v
  | 0 :: rest, .member o pr c => .member (setAt o rest v) pr c
  | 1 :: rest, .member o pr c => .member o (setAt pr rest v) c
  | 0 :: rest, .optMember o pr c => .optMember (setAt o rest v) pr c
  | 1 :: rest, .optMember o pr c => .optMember o (setAt pr rest v) c
  | 0 :: rest, .call c a => .call (setAt c rest v) a
  | 1 :: rest, .call c a => .call c (setAt a rest v)
  | 0 :: rest, .optCall c a => .optCall (setAt c rest v) a
  | 1 :: rest, .optCall c a => .optCall c (setAt a rest v)
  | 0 :: rest, .binary op l r => .binary op (setAt l rest v) r
  | 1 :: rest, .binary op l r => .binary op l (setAt r rest v)
  | 0 :: rest, .logical op l r => .logical op (setAt l rest v) r
  | 1 :: rest, .logical op l r => .logical op l (setAt r rest v)
  | 0 :: rest, .cond t c a => .cond (setAt t rest v) c a
  | 1 :: rest, .cond t c a => .cond t (setAt c rest v) a
  | 2 :: rest, .cond t c a => .cond t c (setAt a rest v)
  | 0 :: rest, .assign op l r => .assign op (setAt l rest v) r
  | 1 :: rest, .assign op l r => .assign op l (setAt r rest v)
  | 0 :: rest, .unary op a pfx => .unary op (setAt a rest v) pfx
  | 0 :: rest, .seq es => .seq (setAt es rest v)
  | 0 :: rest, .arrayLit es => .arrayLit (setAt es rest v)
  | 0 :: rest, .spreadElem a => .spreadElem (setAt a rest v)
  | 0 :: rest, .argsCons h t => .argsCons (setAt h rest v) t
  | 1 :: rest, .argsCons h t => .argsCons h (setAt t rest v)
  | _, e => e

/-- Positions, in pre-order (ast-types visit order: a node before its
children, children in field order), of every subtree satisfying `isCand` —
the model of `root.find(...)` collecting its matched paths eagerly before the
`forEach`. -/
def collectPositions (isCand : Expr → Bool) (e : Expr) : List Pos :=
  (if isCand e then [([] : Pos)] else []) ++
  match e with
  | .member o p _ =>
    (collectPositions isCand o).map (0 :: ·) ++ (collectPositions isCand p).map (1 :: ·)
  | .optMember o p _ =>
    (collectPositions isCand o).map (0 :: ·) ++ (collectPositions isCand p).map (1 :: ·)
  | .call c a =>
    (collectPositions isCand c).map (0 :: ·) ++ (collectPositions isCand a).map (1 :: ·)
  | .optCall c a =>
    (collectPositions isCand c).map (0 :: ·) ++ (collectPositions isCand a).map (1 :: ·)
  | .binary _ l r =>
    (collectPositions isCand l).map (0 :: ·) ++ (collectPositions isCand r).map (1 :: ·)
  | .logical _ l r =>
    (collectPositions isCand l).map (0 :: ·) ++ (collectPositions isCand r).map (1 :: ·)
  | .cond t c a =>
    (collectPositions isCand t).map (0 :: ·) ++ (collectPositions isCand c).map (1 :: ·)
      ++ (collectPositions isCand a).map (2 :: ·)
  | .assign _ l r =>
    (collectPositions isCand l).map (0 :: ·) ++ (collectPositions isCand r).map (1 :: ·)
  | .unary _ a _ => (collectPositions isCand a).map (0 :: ·)
  | .seq es => (collectPositions isCand es).map (0 :: ·)
  | .arrayLit es => (collectPositions isCand es).map (0 :: ·)
  | .spreadElem a => (collectPositions isCand a).map (0 :: ·)
  | .argsCons h t =>
    (collectPositions isCand h).map (0 :: ·) ++ (collectPositions isCand t).map (1 :: ·)
  | _ => []

/-- `root.find(j.ConditionalExpression)` matches. -/
def isCondCandidate : Expr → Bool
  | .cond .. => true
  | _ => false

/-- `root.find(j.LogicalExpression, { operator: op => op === '&&' || op ===
'||' })` matches. -/
def isLogicalCandidate : Expr → Bool
  | .logical op _ _ => op = "&&" || op = "||"
  | _ => false

/-- `q` is an ancestor-or-self position of `p` (a list prefix). -/
def posAncestor : Pos → Pos → Bool
  | [], _ => true
  | _ :: _, [] => false
  | a :: qs, b :: ps => a = b && posAncestor qs ps

/--
The state of one `transformAST` invocation.  A jscodeshift `ASTPath` object
is identified with the pair of its position and the epoch (`birth`) of the
last `path.replace` at that position or an ancestor: ast-types caches child
paths, so two traversals of an unchanged region return the identical path
object, while a `replace` makes every path at or below the replaced position
a fresh object.  `visited` is the source's `Set<ASTPath>` (line 35, created
once per invocation, shared by all passes); `replLog` records each
replacement's position and time; `clock` counts replacements.
-/
structure DriverState where
  doc : Expr
  visited : List (Pos × Nat)
  replLog : List (Pos × Nat)
  clock : Nat
deriving DecidableEq, Repr

/-- The epoch of the path object currently at `p`: the time of the latest
replacement at `p` or an ancestor of `p` (0 if none). -/
def birth (replLog : List (Pos × Nat)) (p : Pos) : Nat :=
  replLog.foldl
    (fun acc entry => if posAncestor entry.1 p && acc < entry.2 then entry.2 else acc) 0

/--
Processing of one collected path (source lines 41-49 and 53-61): skip a path
already in the visited set, otherwise add it and run
`convertOptionalChaining`, replacing the node on success.  A collected pair
whose epoch no longer matches is a detached path (an earlier item of the same
sweep replaced one of its ancestors): the source still visits it, but its
node is no longer part of the document, so neither the conversion attempt nor
the `path.replace` can change the document, and its entry can never be looked
up again (epochs only grow); it is therefore skipped whole.
-/
def runCandidate (s : DriverState) (pb : Pos × Nat) : DriverState :=
  if birth s.replLog pb.1 ≠ pb.2 then s
  else if s.visited.contains pb then s
  else
    let s1 := { s with visited := pb :: s.visited }
    match getAt s1.doc pb.1 with
    | none => s1
    | some node =>
      match convertOptionalChaining node with
      | none => s1
      | some r =>
        { s1 with
          doc := setAt s1.doc pb.1 r
          replLog := (pb.1, s1.clock + 1) :: s1.replLog
          clock := s1.clock + 1 }

/-- `forEach` over the eagerly collected paths. -/
def runCandidates (s : DriverState) (items : List (Pos × Nat)) : DriverState :=
  items.foldl runCandidate s

/-- Collect the paths matching `isCand` in the current document, pairing each
position with its current epoch. -/
def collectCandidates (isCand : Expr → Bool) (s : DriverState) : List (Pos × Nat) :=
  (collectPositions isCand s.doc).map fun p => (p, birth s.replLog p)

/-- One pass of the `while` loop (source lines 39-61): first every
conditional expression, then every `&&`/`||` logical expression, each
collection taken from the document as updated so far. -/
def sweep (s : DriverState) : DriverState :=
  let s1 := runCandidates s (collectCandidates isCondCandidate s)
  runCandidates s1 (collectCandidates isLogicalCandidate s1)

def initState (doc : Expr) : DriverState :=
  { doc := doc, visited := [], replLog := [], clock := 0 }

def transformASTPasses : Nat → DriverState → DriverState
  | 0, s => s
  | n + 1, s => transformASTPasses n (sweep s)

/-- `transformAST` (source lines 32-63): `let passes = 5; while (passes--)`
around the two finds, with one visited set shared by all five passes. -/
def transformAST (doc : Expr) : Expr :=
  (transformASTPasses 5 (initState doc)).doc

/-- The driver as claim C8 describes it: "each pass re-runs the engine over
all matching nodes, and a per-sweep visited-node set prevents reprocessing a
node within one outer sweep" — i.e. the visited set is emptied at the start
of every pass.  Stated for comparison with `transformAST`, whose set is
created once per invocation. -/
def transformASTPerSweepPasses : Nat → DriverState → DriverState
  | 0, s => s
  | n + 1, s => transformASTPerSweepPasses n (sweep { s with visited := [] })

/-- The entry point under claim C8's per-sweep reading of the visited set. -/
def transformASTPerSweepVisited (doc : Expr) : Expr :=
  (transformASTPerSweepPasses 5 (initState doc)).doc

/-- A document is converged when the engine matches no candidate in it: every
conditional or logical (`&&`/`||`) subtree yields `null` from
`convertOptionalChaining`. -/
def Converged (d : Expr) : Prop :=
  ∀ p n, getAt d p = some n → (isCondCandidate n || isLogicalCandidate n) = true →
    convertOptionalChaining n = none

end Wakaru

namespace Wakaru

open Expr

/-! Concrete inputs used by the claim theorems. -/

/-- `void 0`. -/
def void0 : Expr := unary "void" (numLit 0) true

/-- `a !== null && a !== undefined && a.b !== null && a.b !== undefined
? a.b.c : undefined` (claim C1; `&&` is left-associative). -/
def c1input : Expr :=
  cond
    (logical "&&"
      (logical "&&"
        (logical "&&"
          (binary "!==" (ident "a") nullLit)
          (binary "!==" (ident "a") (ident "undefined")))
        (binary "!==" (member (ident "a") (ident "b") false) nullLit))
      (binary "!==" (member (ident "a") (ident "b") false) (ident "undefined")))
    (member (member (ident "a") (ident "b") false) (ident "c") false)
    (ident "undefined")

/-- `a?.b?.c`. -/
def c1output : Expr :=
  optMember (optMember (ident "a") (ident "b") false) (ident "c") false

/-- The nested `||` chain of the claim C2 example:
`null == r || null === (n = r.app_info) || void 0 === n ||
null === (o = n.base_info) || void 0 === o` (left-associative). -/
def c2orChain : Expr :=
  logical "||"
    (logical "||"
      (logical "||"
        (logical "||"
          (binary "==" nullLit (ident "r"))
          (binary "===" nullLit
            (assign "=" (ident "n") (member (ident "r") (ident "app_info") false))))
        (binary "===" void0 (ident "n")))
      (binary "===" nullLit
        (assign "=" (ident "o") (member (ident "n") (ident "base_info") false))))
    (binary "===" void0 (ident "o"))

/-- `null !== (t = c2orChain ? void 0 : o.app_name) && void 0 !== t
? t : "game"` (claim C2). -/
def c2input : Expr :=
  cond
    (logical "&&"
      (binary "!==" nullLit
        (assign "=" (ident "t")
          (cond c2orChain void0 (member (ident "o") (ident "app_name") false))))
      (binary "!==" void0 (ident "t")))
    (ident "t") (strLit "game")

/-- `r?.app_info?.base_info?.app_name`. -/
def c2chain : Expr :=
  optMember
    (optMember
      (optMember (ident "r") (ident "app_info") false)
      (ident "base_info") false)
    (ident "app_name") false

/-- The claim C2 example with a foreign condition `r.x > 0` inserted into the
`||` chain (claim C9). -/
def c9input : Expr :=
  cond
    (logical "&&"
      (binary "!==" nullLit
        (assign "=" (ident "t")
          (cond
            (logical "||"
              (logical "||"
                (logical "||"
                  (logical "||"
                    (logical "||"
                      (binary "==" nullLit (ident "r"))
                      (binary ">" (member (ident "r") (ident "x") false) (numLit 0)))
                    (binary "===" nullLit
                      (assign "=" (ident "n")
                        (member (ident "r") (ident "app_info") false))))
                  (binary "===" void0 (ident "n")))
                (binary "===" nullLit
                  (assign "=" (ident "o")
                    (member (ident "n") (ident "base_info") false))))
              (binary "===" void0 (ident "o")))
            void0 (member (ident "o") (ident "app_name") false))))
      (binary "!==" void0 (ident "t")))
    (ident "t") (strLit "game")

/-- `a ? b : c` with neither branch falsy (claims C3 and C7). -/
def plainTernary : Expr := cond (ident "a") (ident "b") (ident "c")

/-- `null == a ? undefined : a.b`, the inner candidate of the claim C8
counterexample document. -/
def c8inner : Expr :=
  cond (binary "==" nullLit (ident "a")) (ident "undefined")
    (member (ident "a") (ident "b") false)

/-- `a?.b ? undefined : (null == a ? undefined : a.b).c` — a document whose
outer conditional fails while its inner conditional still converts: under the
source's invocation-wide visited set the outer node is never retried, while
re-running every pass over all matching nodes (claim C8's reading) would
convert it on the second pass. -/
def c8doc : Expr :=
  cond (optMember (ident "a") (ident "b") false) (ident "undefined")
    (member c8inner (ident "c") false)

/-- What `transformAST` actually leaves of `c8doc`: the inner candidate
converted, the outer one (visited in pass 1) untouched — partially converged,
without error. -/
def c8partial : Expr :=
  cond (optMember (ident "a") (ident "b") false) (ident "undefined")
    (member (optMember (ident "a") (ident "b") false) (ident "c") false)

/-- Decidable convergence of a document: every conditional / logical
candidate position yields `null` from `convertOptionalChaining` (the
positions are exactly those the driver's two finds collect). -/
def converged (d : Expr) : Bool :=
  (collectPositions isCondCandidate d ++ collectPositions isLogicalCandidate d).all
    fun p =>
      match getAt d p with
      | some n => (convertOptionalChaining n).isNone
      | none => true

open Expr in
/-- The claim C2 input family, generators (shape from the spec's grammar of
the nullish-coalescing desugaring).  `mkLinkConds` renders one guard pair per
link `(nᵢ, pᵢ)`: `null === (nᵢ = parentᵢ.pᵢ)` followed by `void 0 === nᵢ`,
with `parentᵢ` the previous link's temporary (the root for the first). -/
def mkLinkConds (parent : String) : List (String × String) → List Expr
  | [] => []
  | (n, p) :: rest =>
    binary "===" nullLit (assign "=" (ident n) (member (ident parent) (ident p) false))
    :: binary "===" void0 (ident n)
    :: mkLinkConds n rest

open Expr in
/-- Left-nested `||` chain over `first :: rest` (the shape jscodeshift parses
for a flat `a || b || c`). -/
def mkOrChain (first : Expr) (rest : List Expr) : Expr :=
  rest.foldl (fun a c => logical "||" a c) first

/-- The last link's temporary (the root variable when there are no links). -/
def lastName (root : String) (links : List (String × String)) : String :=
  links.foldl (fun _ l => l.1) root

open Expr in
/-- The claim C2 conditional:
`null !== (t = OR-chain ? void 0 : last.pfin) && void 0 !== t ? t : fb`. -/
def c2family (root : String) (links : List (String × String)) (t pfin : String)
    (fb : Expr) : Expr :=
  cond
    (logical "&&"
      (binary "!==" nullLit
        (assign "=" (ident t)
          (cond (mkOrChain (binary "==" nullLit (ident root)) (mkLinkConds root links))
            void0 (member (ident (lastName root links)) (ident pfin) false))))
      (binary "!==" void0 (ident t)))
    (ident t) fb

/-- The map entry `analyzeConditions` records for the root variable. -/
def rootEntry (root : String) : VarAssignment :=
  { varName := root, parent := none, source := .ident root, properties := [] }

/-- The map entry `analyzeConditions` records for one link. -/
def linkEntry (parent n p : String) : VarAssignment :=
  { varName := n, parent := some parent,
    source := .member (.ident parent) (.ident p) false,
    properties := [{ propertyName := p, computed := false }] }

/-- The link entries of a chain, in insertion order. -/
def linkEntries (parent : String) : List (String × String) → VarMap
  | [] => []
  | (n, p) :: rest => (n, linkEntry parent n p) :: linkEntries n rest

open Expr in
/-- The expected output chain `root?.p1?.p2?…?.pn` (all properties plain,
non-computed). -/
def mkChain (root : String) (props : List String) : Expr :=
  props.foldl (fun e p => optMember e (ident p) false) (ident root)

/-- The back-tracing invariant: from `start`, each link's temporary is bound in
the map to a member access on its predecessor, carrying exactly its property. -/
def chainFrom (m : VarMap) : String → List (String × String) → Prop
  | _, [] => True
  | start, (n, p) :: rest =>
      start ≠ "" ∧ mapGet m n = some (linkEntry start n p) ∧ chainFrom m n rest

end Wakaru

namespace Wakaru

/-! Helper lemmas for the driver proofs. -/

/-- A candidate whose node converts to `null` (or whose position is invalid)
leaves the document, the replacement log and the clock unchanged. -/
theorem runCandidate_nochange (s : DriverState) (pb : Pos × Nat)
    (h : (match getAt s.doc pb.1 with
          | some n => (convertOptionalChaining n).isNone
          | none => true) = true) :
    (runCandidate s pb).doc = s.doc ∧ (runCandidate s pb).replLog = s.replLog ∧
      (runCandidate s pb).clock = s.clock := by
  unfold runCandidate
  split
  · exact ⟨rfl, rfl, rfl⟩
  · split
    · exact ⟨rfl, rfl, rfl⟩
    · cases hg : getAt s.doc pb.1 with
      | none => simp [hg]
      | some n =>
        rw [hg] at h
        simp only [Option.isNone_iff_eq_none] at h
        simp [hg, h]

/-- Folding candidates whose nodes all convert to `null` changes nothing but
the visited set. -/
theorem runCandidates_nochange (items : List (Pos × Nat)) :
    ∀ (s : DriverState) (d : Expr), s.doc = d → s.replLog = s.replLog →
    (∀ pb ∈ items,
      (match getAt d pb.1 with
       | some n => (convertOptionalChaining n).isNone
       | none => true) = true) →
    (runCandidates s items).doc = d ∧
      (runCandidates s items).replLog = s.replLog ∧
      (runCandidates s items).clock = s.clock := by
  induction items with
  | nil => intro s d hd _ _; exact ⟨hd, rfl, rfl⟩
  | cons pb rest ih =>
    intro s d hd _ hall
    have hhd := hall pb (List.mem_cons_self pb rest)
    rw [← hd] at hhd
    obtain ⟨h1, h2, h3⟩ := runCandidate_nochange s pb hhd
    have := ih (runCandidate s pb) d (h1.trans hd) rfl
      (fun q hq => hall q (List.mem_cons_of_mem pb hq))
    simp only [runCandidates] at this ⊢
    obtain ⟨r1, r2, r3⟩ := this
    exact ⟨r1, r2.trans h2, r3.trans h3⟩

/-- One pass over a converged document changes nothing but the visited set. -/
theorem sweep_nochange (s : DriverState) (h : converged s.doc = true) :
    (sweep s).doc = s.doc ∧ (sweep s).replLog = s.replLog ∧
      (sweep s).clock = s.clock := by
  have hall := List.all_eq_true.mp h
  have hconds : ∀ pb ∈ collectCandidates isCondCandidate s,
      (match getAt s.doc pb.1 with
       | some n => (convertOptionalChaining n).isNone
       | none => true) = true := by
    intro pb hpb
    simp only [collectCandidates, List.mem_map] at hpb
    obtain ⟨p, hp, rfl⟩ := hpb
    exact hall p (List.mem_append_left _ hp)
  obtain ⟨h1, h2, h3⟩ :=
    runCandidates_nochange (collectCandidates isCondCandidate s) s s.doc rfl rfl hconds
  set s1 := runCandidates s (collectCandidates isCondCandidate s) with hs1
  have hlogis : ∀ pb ∈ collectCandidates isLogicalCandidate s1,
      (match getAt s1.doc pb.1 with
       | some n => (convertOptionalChaining n).isNone
       | none => true) = true := by
    intro pb hpb
    simp only [collectCandidates, List.mem_map] at hpb
    obtain ⟨p, hp, rfl⟩ := hpb
    rw [h1] at hp ⊢
    exact hall p (List.mem_append_right _ hp)
  obtain ⟨g1, g2, g3⟩ :=
    runCandidates_nochange (collectCandidates isLogicalCandidate s1) s1 s1.doc rfl rfl hlogis
  refine ⟨g1.trans h1, g2.trans h2, g3.trans h3⟩

/-- Any number of passes over a converged document leaves it unchanged. -/
theorem transformASTPasses_nochange (n : Nat) :
    ∀ (s : DriverState), converged s.doc = true →
      (transformASTPasses n s).doc = s.doc := by
  induction n with
  | zero => intro s _; rfl
  | succ m ih =>
    intro s h
    obtain ⟨h1, _, _⟩ := sweep_nochange s h
    have := ih (sweep s) (by rw [h1]; exact h)
    simp only [transformASTPasses]
    rw [this, h1]

end Wakaru

namespace Wakaru

/-- C1: for the input expression `a !== null && a !== undefined && a.b !==
null && a.b !== undefined ? a.b.c : undefined`, the transformation replaces
the node with `a?.b?.c` — the outer not-null test is normalized by tree
negation and the final result re-negated, yielding the plain optional
chain. -/
theorem claim_C1_worked_example :
    convertOptionalChaining c1input = some c1output := by decide

/-- C9: a foreign condition (`r.x > 0`) inside the nested `||` chain is
silently skipped by `analyzeConditions` and does not by itself make the match
fail: on the claim C2 example with that condition inserted, the analyzer
still returns `r?.app_info?.base_info?.app_name ?? "game"`, built from the
remaining recognizable conditions, with the foreign condition dropped — the
same result as for the chain without it. -/
theorem claim_C9_foreign_condition_skipped :
    analyzeOptionalChain c9input =
        some (.logical "??" c2chain (.strLit "game"), ["r", "n", "o"]) ∧
      analyzeOptionalChain c9input = analyzeOptionalChain c2input := by decide

/-- C3: `convertOptionalChaining` returns a replacement only if at least one
optional substitution set the `transformed` flag during that attempt — the
flag is reset at the start of each attempt, so a successful return means the
Chain Constructor's run from the clear flag ended with it set; and for
`a ? b : c` with neither branch falsy the flag stays clear and the node is
left unchanged (`null` is returned). -/
theorem claim_C3_matched_flag_gate :
    (∀ e r, convertOptionalChaining e = some r →
      (constructOptionalChaining TState.init
        (let dt0 := makeDecisionTreeWithConditionSplitting (makeDecisionTree e)
         if dt0.condition.isNotNullBinary then negateDecisionTree dt0 else dt0)
        0).1.transformed = true) ∧
      convertOptionalChaining plainTernary = none := by
  constructor
  · intro e r h
    simp only [convertOptionalChaining] at h
    rcases hcc : constructOptionalChaining TState.init
        (let dt0 := makeDecisionTreeWithConditionSplitting (makeDecisionTree e)
         if dt0.condition.isNotNullBinary then negateDecisionTree dt0 else dt0)
        0 with ⟨st1, res⟩
    rw [hcc] at h
    cases res with
    | none => simp at h
    | some r' =>
      rcases ht : st1.transformed with _ | _
      · simp [ht] at h
      · rfl
  · decide

/-- C3 witness: the implication of `claim_C3_matched_flag_gate` discharged at
the concrete claim C1 input, whose conversion succeeds. -/
theorem claim_C3_witness :
    (constructOptionalChaining TState.init
      (let dt0 := makeDecisionTreeWithConditionSplitting (makeDecisionTree c1input)
       if dt0.condition.isNotNullBinary then negateDecisionTree dt0 else dt0)
      0).1.transformed = true :=
  claim_C3_matched_flag_gate.1 c1input c1output (by decide)

end Wakaru

namespace Wakaru

/-- C6 counterexample: the claim says a decision-tree node with no false
branch reached by the Chain Constructor succeeds "regardless of the current
state", but a leaf reached in mode 1 (seeking the paired undefined check) is
terminal failure: on the leaf `x.b` the call in mode 1 returns `null` and
leaves the state untouched. -/
theorem claim_C6_counterexample :
    constructOptionalChaining TState.init
      (.node (.member (.ident "x") (.ident "b") false) .nil .nil) 1 =
      (TState.init, none) := by decide

/-- C6 (amended): a leaf with no further comparison is terminal success only
in mode 0 — every embedded assignment to a plain identifier is folded into
the condition via the Expression Rewriter and each assigned name is submitted
to the Scope Cleaner; the same leaf reached in mode 1 is terminal failure
with the state unchanged. -/
theorem claim_C6_leaf_modes (st : TState) (condition : Expr) :
    (constructOptionalChaining st (.node condition .nil .nil) 0 =
      (let allAssignment := findIdentAssignments condition ++
        (match condition with
         | .assign op (.ident n) r => [Expr.assign op (.ident n) r]
         | _ => [])
       let (st1, result) := foldAssignments st condition allAssignment
       ({ st1 with removals := st1.removals ++ assignedNames allAssignment },
         some result))) ∧
    constructOptionalChaining st (.node condition .nil .nil) 1 = (st, none) := by
  constructor
  · rfl
  · rfl

end Wakaru

namespace Wakaru

/-- C7: the transformation entry point is a no-op on a converged document —
when every conditional / logical (`&&`/`||`) candidate in the document yields
`null` from `convertOptionalChaining` (in particular on source that already
carries the reconstructed `?.`/`??` forms), `transformAST` changes nothing,
so a repeated invocation after convergence equals a single one. -/
theorem claim_C7_noop_after_convergence (d : Expr) (h : converged d = true) :
    transformAST d = d := by
  unfold transformAST
  exact transformASTPasses_nochange 5 (initState d) h

/-- C7 witness: the ternary `a ? b : c` (no branch falsy) is a converged
document, and `transformAST` leaves it unchanged. -/
theorem claim_C7_witness :
    converged plainTernary = true ∧ transformAST plainTernary = plainTernary :=
  ⟨by decide, claim_C7_noop_after_convergence plainTernary (by decide)⟩

/-- C8 counterexample: the claim says each pass re-runs the engine over all
matching nodes, with a visited set scoped to one sweep.  On `c8doc` — whose
outer conditional fails in pass 1 but would convert in pass 2 after its inner
conditional was replaced — the source's invocation-wide visited set skips the
outer node forever, so `transformAST` differs from the driver the claim
describes (`transformASTPerSweepVisited`). -/
theorem claim_C8_counterexample :
    transformAST c8doc ≠ transformASTPerSweepVisited c8doc := by decide

/-- C8 (amended): `transformAST` terminates on every input and runs exactly 5
outer passes over the document's conditional and logical (`&&`/`||`)
candidates; the visited set is created once per invocation and shared by all
passes, so a path already visited is never reprocessed in any later pass of
the same invocation (not merely within one sweep); input the passes cannot
converge — here `c8doc`, whose outer conditional stays unconverted — is left
partially converged without error. -/
theorem claim_C8_bounded_passes :
    (∀ d, transformAST d = (transformASTPasses 5 (initState d)).doc) ∧
      (∀ (s : DriverState) (pb : Pos × Nat), pb ∈ s.visited →
        runCandidate s pb = s) ∧
      transformAST c8doc = c8partial := by
  refine ⟨fun d => rfl, ?_, by decide⟩
  intro s pb hmem
  unfold runCandidate
  split
  · rfl
  · split
    · rfl
    · rename_i hcon
      exact absurd (List.elem_eq_true_of_mem hmem) hcon

/-- C8 witness: the no-reprocessing clause of `claim_C8_bounded_passes`
discharged at a concrete state whose visited set holds the root path. -/
theorem claim_C8_witness :
    runCandidate
      { doc := plainTernary, visited := [([], 0)], replLog := [], clock := 0 }
      ([], 0) =
      { doc := plainTernary, visited := [([], 0)], replLog := [], clock := 0 } :=
  claim_C8_bounded_passes.2.1
    { doc := plainTernary, visited := [([], 0)], replLog := [], clock := 0 }
    ([], 0) (by decide)

end Wakaru

namespace Wakaru

/-- An expression passes `isNull` exactly when it is the `null` literal. -/
theorem Expr.isNull_iff (e : Expr) : e.isNull = true ↔ e = Expr.nullLit := by
  cases e <;> simp [Expr.isNull]

/-- C5: in the Chain Constructor, a null-comparison node with the loose
operator (`==`) recurses into its false branch in mode 0 and with the strict
operator (`===`) in mode 1 (stated for a compared identifier, whose
substitution is returned directly); and in mode 1 the call returns a non-null
result only when the condition is an undefined comparison with a false branch
— recursing onward into it in mode 0 — and returns `null`, aborting
reconstruction for this node, for any other shape. -/
theorem claim_C5_mode_transitions :
    (∀ (st : TState) (x : String) (r : Expr) (tb : DecisionTree) (fc : Expr)
        (ft ff : DecisionTree),
      r.isNull = true →
      falsyGate (.node (.binary "==" (.ident x) r) tb (.node fc ft ff)) = true →
      constructOptionalChaining st
          (.node (.binary "==" (.ident x) r) tb (.node fc ft ff)) 0 =
        (match constructOptionalChaining st (.node fc ft ff) 0 with
         | (st1, none) => (st1, none)
         | (st1, some cnd) =>
           let (st2, result) := applyOptionalChaining st1 cnd (.ident x) none
           (st2, some result))) ∧
    (∀ (st : TState) (x : String) (r : Expr) (tb : DecisionTree) (fc : Expr)
        (ft ff : DecisionTree),
      r.isNull = true →
      falsyGate (.node (.binary "===" (.ident x) r) tb (.node fc ft ff)) = true →
      constructOptionalChaining st
          (.node (.binary "===" (.ident x) r) tb (.node fc ft ff)) 0 =
        (match constructOptionalChaining st (.node fc ft ff) 1 with
         | (st1, none) => (st1, none)
         | (st1, some cnd) =>
           let (st2, result) := applyOptionalChaining st1 cnd (.ident x) none
           (st2, some result))) ∧
    (∀ (st : TState) (condition : Expr) (tb : DecisionTree) (fc : Expr)
        (ft ff : DecisionTree),
      falsyGate (.node condition tb (.node fc ft ff)) = true →
      condition.isUndefinedBinary = true →
      constructOptionalChaining st (.node condition tb (.node fc ft ff)) 1 =
        constructOptionalChaining st (.node fc ft ff) 0) ∧
    (∀ (st : TState) (tree : DecisionTree),
      (constructOptionalChaining st tree 1).2.isSome = true →
      tree.falseBranch ≠ .nil ∧ tree.condition.isUndefinedBinary = true) := by
  refine ⟨?_, ?_, ?_, ?_⟩
  · intro st x r tb fc ft ff hr hg
    rw [Expr.isNull_iff] at hr
    subst hr
    rcases hrec : constructOptionalChaining st (.node fc ft ff) 0 with ⟨st1, res⟩
    cases res with
    | none =>
      simp [constructOptionalChaining, hg, hrec, Expr.isNull, Expr.isIdent,
        Expr.isMemberLike]
    | some cnd =>
      rcases happ : applyOptionalChaining st1 cnd (.ident x) none with ⟨st2, result⟩
      simp [constructOptionalChaining, hg, hrec, happ, Expr.isNull, Expr.isIdent,
        Expr.isMemberLike]
  · intro st x r tb fc ft ff hr hg
    rw [Expr.isNull_iff] at hr
    subst hr
    rcases hrec : constructOptionalChaining st (.node fc ft ff) 1 with ⟨st1, res⟩
    cases res with
    | none =>
      simp [constructOptionalChaining, hg, hrec, Expr.isNull, Expr.isIdent,
        Expr.isMemberLike]
    | some cnd =>
      rcases happ : applyOptionalChaining st1 cnd (.ident x) none with ⟨st2, result⟩
      simp [constructOptionalChaining, hg, hrec, happ, Expr.isNull, Expr.isIdent,
        Expr.isMemberLike]
  · intro st condition tb fc ft ff hg hu
    simp [constructOptionalChaining, hg, hu]
  · intro st tree h
    cases tree with
    | nil => simp [constructOptionalChaining] at h
    | node cond tb fb =>
      rw [constructOptionalChaining.eq_def] at h
      cases hfg : falsyGate (.node cond tb fb) with
      | false => simp [hfg] at h
      | true =>
        cases fb with
        | nil => simp [hfg] at h
        | node fc ft ff =>
          cases hu : cond.isUndefinedBinary with
          | false => simp [hfg, hu] at h
          | true =>
            exact ⟨by simp [DecisionTree.falseBranch], by simp [DecisionTree.condition, hu]⟩

/-- C5 witness: the four clauses of `claim_C5_mode_transitions` discharged at
concrete inputs — the loose chain `x == null` over the leaf `x.b`, the strict
pair `x === null` / `x === undefined` over the same leaf, the mode-1 step on
the undefined comparison, and the only-when clause at that same node. -/
theorem claim_C5_witness :
    (constructOptionalChaining TState.init
        (.node (.binary "==" (.ident "x") .nullLit) .nil
          (.node (.member (.ident "x") (.ident "b") false) .nil .nil)) 0 =
      (match constructOptionalChaining TState.init
          (.node (.member (.ident "x") (.ident "b") false) .nil .nil) 0 with
       | (st1, none) => (st1, none)
       | (st1, some cnd) =>
         let (st2, result) := applyOptionalChaining st1 cnd (.ident "x") none
         (st2, some result))) ∧
    (constructOptionalChaining TState.init
        (.node (.binary "===" (.ident "x") .nullLit) .nil
          (.node (.binary "===" (.ident "x") (.ident "undefined")) .nil
            (.node (.member (.ident "x") (.ident "b") false) .nil .nil))) 0 =
      (match constructOptionalChaining TState.init
          (.node (.binary "===" (.ident "x") (.ident "undefined")) .nil
            (.node (.member (.ident "x") (.ident "b") false) .nil .nil)) 1 with
       | (st1, none) => (st1, none)
       | (st1, some cnd) =>
         let (st2, result) := applyOptionalChaining st1 cnd (.ident "x") none
         (st2, some result))) ∧
    (constructOptionalChaining TState.init
        (.node (.binary "===" (.ident "x") (.ident "undefined")) .nil
          (.node (.member (.ident "x") (.ident "b") false) .nil .nil)) 1 =
      constructOptionalChaining TState.init
        (.node (.member (.ident "x") (.ident "b") false) .nil .nil) 0) ∧
    ((DecisionTree.node (.binary "===" (.ident "x") (.ident "undefined")) .nil
        (.node (.member (.ident "x") (.ident "b") false) .nil .nil)).falseBranch ≠ .nil ∧
      (DecisionTree.node (.binary "===" (.ident "x") (.ident "undefined")) .nil
        (.node (.member (.ident "x") (.ident "b") false) .nil .nil)).condition.isUndefinedBinary
        = true) :=
  ⟨claim_C5_mode_transitions.1 TState.init "x" .nullLit .nil
      (.member (.ident "x") (.ident "b") false) .nil .nil (by decide) (by decide),
    claim_C5_mode_transitions.2.1 TState.init "x" .nullLit .nil
      (.binary "===" (.ident "x") (.ident "undefined")) .nil
      (.node (.member (.ident "x") (.ident "b") false) .nil .nil) (by decide) (by decide),
    claim_C5_mode_transitions.2.2.1 TState.init
      (.binary "===" (.ident "x") (.ident "undefined")) .nil
      (.member (.ident "x") (.ident "b") false) .nil .nil (by decide) (by decide),
    claim_C5_mode_transitions.2.2.2 TState.init
      (.node (.binary "===" (.ident "x") (.ident "undefined")) .nil
        (.node (.member (.ident "x") (.ident "b") false) .nil .nil)) (by decide)⟩

end Wakaru

namespace Wakaru

set_option maxHeartbeats 2000000 in
/-- C4: for every call `obj.m.apply(tok, arg)` whose first argument equals the
substitution token, the rewriter (a) leaves the node and state unchanged when the
second argument is a spread element, (b) expands an array-literal second argument
element-by-element through the fill-walk, and (c) wraps any other second argument
in a spread element, in both cases producing the optional call `obj.m?.(...)` with
the matched flag set. -/
theorem claim_C4_apply_rewrite (st : TState) (tempVariable : Expr) (target : Option Expr)
    (objm tok arg : Expr) (c : Bool)
    (hm : objm.isMemberLike = true) (htok : tok = tempVariable) :
    (∀ s : Expr, applyOptionalChaining st
        (.call (.member objm (.ident "apply") c)
          (.argsCons tok (.argsCons (.spreadElem s) .argsNil))) tempVariable target
      = (st, .call (.member objm (.ident "apply") c)
          (.argsCons tok (.argsCons (.spreadElem s) .argsNil)))) ∧
    (∀ elems : Expr, applyOptionalChaining st
        (.call (.member objm (.ident "apply") c)
          (.argsCons tok (.argsCons (.arrayLit elems) .argsNil))) tempVariable target
      = (let (st1, obj') := applyOptionalChaining st objm tempVariable target
         let (st2, args') := applyOptionalChainingFillArgs st1 elems tempVariable target
         ({ st2 with transformed := true }, .optCall obj' args'))) ∧
    (arg.isSpread = false → (∀ es : Expr, arg ≠ .arrayLit es) →
      applyOptionalChaining st
        (.call (.member objm (.ident "apply") c)
          (.argsCons tok (.argsCons arg .argsNil))) tempVariable target
      = (let (st1, obj') := applyOptionalChaining st objm tempVariable target
         ({ st1 with transformed := true },
          .optCall obj' (.argsCons (.spreadElem arg) .argsNil)))) := by
  subst htok
  refine ⟨fun s => ?_, fun elems => ?_, fun hns hna => ?_⟩
  · rcases target with _ | tg <;> cases objm <;>
      first | rfl | (exact Bool.noConfusion hm)
  · rcases target with _ | tg <;> cases objm <;>
      first | rfl | (exact Bool.noConfusion hm)
  · cases arg <;>
      first
      | (exact Bool.noConfusion hns)
      | (exact absurd rfl (hna _))
      | (rcases target with _ | tg <;> cases objm <;>
          first | rfl | (exact Bool.noConfusion hm))

theorem claim_C4_witness :
    applyOptionalChaining TState.init
      (.call (.member (.member (.ident "o") (.ident "m") false) (.ident "apply") false)
        (.argsCons (.ident "x") (.argsCons (.spreadElem (.ident "s")) .argsNil)))
      (.ident "x") (some (.ident "z"))
    = (TState.init, .call (.member (.member (.ident "o") (.ident "m") false) (.ident "apply") false)
        (.argsCons (.ident "x") (.argsCons (.spreadElem (.ident "s")) .argsNil))) :=
  (claim_C4_apply_rewrite TState.init (.ident "x") (some (.ident "z"))
    (.member (.ident "o") (.ident "m") false) (.ident "x") (.numLit 1) false
    (by decide) rfl).1 (.ident "s")

end Wakaru

namespace Wakaru

/-- Unfolding of the fill-walk on a cons cell of the element chain: the head is
hole-filled and rewritten (spread elements pass through), the tail is walked
with the threaded state, and the results are re-consed. -/
theorem fillArgs_cons_eq (st : TState) (a rest tempVariable : Expr)
    (target : Option Expr) :
    applyOptionalChainingFillArgs st (.argsCons a rest) tempVariable target =
    (let p : TState × Expr :=
        match a with
        | .hole =>
          match target with
          | some tg =>
            if Expr.ident "undefined" = tempVariable then (st, smartParenthesized tg)
            else (st, Expr.ident "undefined")
          | none => (st, Expr.ident "undefined")
        | a2 =>
          if a2.isSpread then (st, a2)
          else applyOptionalChaining st a2 tempVariable target
     let q := applyOptionalChainingFillArgs p.1 rest tempVariable target
     (q.1, .argsCons p.2 q.2)) := by
  cases a <;> rcases target with _ | tg <;> rfl

set_option maxHeartbeats 1000000 in
/-- C10: when the fill-walk expands an array literal's element chain, the
argument count is preserved, and — provided the substitution token is not
itself the identifier `undefined` that fills holes, or no target expression is
supplied — every hole of the array literal is replaced by the identifier
`undefined` at the same position of the resulting argument list.  (Amends the
claim: the filled-in identifier is itself passed through the rewriter, so with
token `undefined` and a target present the hole becomes the target instead;
see the separate counterexample.) -/
theorem claim_C10_hole_filling (st : TState) (tempVariable : Expr)
    (target : Option Expr) (elems : Expr)
    (hside : tempVariable ≠ .ident "undefined" ∨ target = none) :
    ((applyOptionalChainingFillArgs st elems tempVariable target).2).toList.length
        = elems.toList.length ∧
    ∀ i : Nat, ∀ h1 : i < elems.toList.length,
      elems.toList.get ⟨i, h1⟩ = .hole →
      ∀ h2 : i <
        ((applyOptionalChainingFillArgs st elems tempVariable target).2).toList.length,
      ((applyOptionalChainingFillArgs st elems tempVariable target).2).toList.get ⟨i, h2⟩
        = .ident "undefined" := by
  induction elems generalizing st with
  | argsCons a rest iha ihrest =>
    rw [fillArgs_cons_eq]
    simp only []
    constructor
    · simp only [Expr.toList, List.length_cons]
      exact congrArg (· + 1) ((ihrest _).1)
    · intro i h1 hhole h2
      match i with
      | 0 =>
        simp only [Expr.toList, List.get] at hhole ⊢
        subst hhole
        rcases hside with hne | hnone
        · rcases target with _ | tg
          · rfl
          · simp only []
            rw [if_neg (fun he => hne he.symm)]
        · subst hnone
          rfl
      | Nat.succ j =>
        simp only [Expr.toList, List.get] at hhole h1 h2 ⊢
        simp only [List.length_cons, Nat.succ_lt_succ_iff] at h1 h2
        exact (ihrest _).2 j h1 hhole h2
  | _ => exact ⟨rfl, fun i h1 => absurd h1 (by simp [Expr.toList])⟩

/-- C10 counterexample to the unconditional reading of the claim: with the
substitution token `undefined` and target `z`, the single hole of the array
literal is expanded to `z`, not to the identifier `undefined` — the filled-in
identifier is passed through the rewriter's line-350 token check. -/
theorem claim_C10_counterexample :
    (Expr.argsCons .hole .argsNil).toList.getD 0 .argsNil = .hole ∧
    ((applyOptionalChainingFillArgs TState.init (.argsCons .hole .argsNil)
        (.ident "undefined") (some (.ident "z"))).2).toList.getD 0 .argsNil
      = .ident "z" ∧
    Expr.ident "z" ≠ .ident "undefined" := by decide

/-- C10 witness: the amended theorem applied to the concrete element chain
`[hole, 1]` with token `x` and target `z`. -/
theorem claim_C10_witness :
    ((applyOptionalChainingFillArgs TState.init
        (.argsCons .hole (.argsCons (.numLit 1) .argsNil))
        (.ident "x") (some (.ident "z"))).2).toList.length
      = (Expr.argsCons .hole (.argsCons (.numLit 1) .argsNil)).toList.length :=
  (claim_C10_hole_filling TState.init (.ident "x") (some (.ident "z"))
    (.argsCons .hole (.argsCons (.numLit 1) .argsNil))
    (Or.inl (by decide))).1

end Wakaru

namespace Wakaru

theorem mapHas_eq_false (m : VarMap) (k : String) (h : ∀ e ∈ m, e.1 ≠ k) :
    mapHas m k = false := by
  simp only [mapHas, List.any_eq_false, decide_eq_true_eq]
  intro e he
  exact h e he

theorem mapSet_of_not_has (m : VarMap) (k : String) (v : VarAssignment)
    (h : mapHas m k = false) : mapSet m k v = m ++ [(k, v)] := by
  simp [mapSet, h]

theorem mapGet_append_of_notin (pre post : VarMap) (k : String)
    (h : ∀ e ∈ pre, e.1 ≠ k) : mapGet (pre ++ post) k = mapGet post k := by
  induction pre with
  | nil => rfl
  | cons a pre ih =>
    have ha : ¬(a.1 = k) := h a (by simp)
    simp only [List.cons_append, mapGet, List.find?_cons]
    rw [decide_eq_false ha]
    exact ih (fun e he => h e (by simp [he]))

theorem mapGet_cons_self (m : VarMap) (k : String) (v : VarAssignment) :
    mapGet ((k, v) :: m) k = some v := by
  simp [mapGet, List.find?_cons]


theorem mapHas_append (a b : VarMap) (k : String) :
    mapHas (a ++ b) k = (mapHas a k || mapHas b k) := by
  simp [mapHas, List.any_append]

theorem extract_mkOrChain (rest : List Expr) (first : Expr)
    (h : ∀ c ∈ rest, extractLogicalOrConditions c = [c]) :
    extractLogicalOrConditions (mkOrChain first rest)
      = extractLogicalOrConditions first ++ rest := by
  induction rest generalizing first with
  | nil => simp [mkOrChain]
  | cons c cs ih =>
    have hstep : mkOrChain first (c :: cs) = mkOrChain (.logical "||" first c) cs := rfl
    rw [hstep, ih _ (fun d hd => h d (by simp [hd]))]
    have : extractLogicalOrConditions (.logical "||" first c)
        = extractLogicalOrConditions first ++ extractLogicalOrConditions c := rfl
    rw [this, h c (by simp)]
    simp

theorem mkLinkConds_atomic (links : List (String × String)) (parent : String) :
    ∀ c ∈ mkLinkConds parent links, extractLogicalOrConditions c = [c] := by
  induction links generalizing parent with
  | nil => intro c hc; simp [mkLinkConds] at hc
  | cons l rest ih =>
    intro c hc
    obtain ⟨n, p⟩ := l
    simp only [mkLinkConds, List.mem_cons] at hc
    rcases hc with h1 | h2 | h3
    · subst h1; rfl
    · subst h2; rfl
    · exact ih n c h3

theorem step_link_assign (rv parent n p : String) (m : VarMap)
    (h : mapHas m n = false) :
    analyzeConditionsStep (some rv, m)
      (.binary "===" .nullLit
        (.assign "=" (.ident n) (.member (.ident parent) (.ident p) false)))
      = (some rv, m ++ [(n, linkEntry parent n p)]) := by
  have h1 : analyzeConditionsStep (some rv, m)
      (.binary "===" .nullLit
        (.assign "=" (.ident n) (.member (.ident parent) (.ident p) false)))
      = (some rv, mapSet m n (linkEntry parent n p)) := rfl
  rw [h1, mapSet_of_not_has m n _ h]

theorem step_link_void (rv n : String) (m : VarMap) :
    analyzeConditionsStep (some rv, m) (.binary "===" void0 (.ident n))
      = (some rv, m) := rfl

theorem step_root (root : String) :
    analyzeConditionsStep (none, []) (.binary "==" .nullLit (.ident root))
      = (some root, [(root, rootEntry root)]) := rfl


theorem analyze_links_fold (links : List (String × String)) :
    ∀ (parent rv : String) (m : VarMap),
    (∀ x ∈ links.map (·.1), mapHas m x = false) →
    (links.map (·.1)).Nodup →
    List.foldl analyzeConditionsStep (some rv, m) (mkLinkConds parent links)
      = (some rv, m ++ linkEntries parent links) := by
  induction links with
  | nil => intro parent rv m _ _; simp [mkLinkConds, linkEntries]
  | cons l rest ih =>
    intro parent rv m hhas hnd
    obtain ⟨n, p⟩ := l
    simp only [mkLinkConds, List.foldl_cons]
    rw [step_link_assign rv parent n p m (hhas n (by simp)), step_link_void]
    simp only [List.map_cons, List.nodup_cons] at hnd
    rw [ih n rv (m ++ [(n, linkEntry parent n p)])
        (fun x hx => by
          rw [mapHas_append]
          have h1 := hhas x (by simp [hx])
          have h2 : mapHas [(n, linkEntry parent n p)] x = false := by
            apply mapHas_eq_false
            intro e he
            simp only [List.mem_singleton] at he
            subst he
            intro hcontra
            have hnx : n = x := hcontra
            exact hnd.1 (hnx ▸ hx)
          rw [h1, h2]
          rfl)
        hnd.2]
    simp [linkEntries, List.append_assoc]

theorem analyze_family (root : String) (links : List (String × String))
    (hnd : (root :: links.map (·.1)).Nodup) :
    analyzeConditions
        (.binary "==" .nullLit (.ident root) :: mkLinkConds root links)
      = (some root, (root, rootEntry root) :: linkEntries root links) := by
  simp only [analyzeConditions, List.foldl_cons, step_root]
  simp only [List.nodup_cons] at hnd
  rw [analyze_links_fold links root root [(root, rootEntry root)]
      (fun x hx => by
        apply mapHas_eq_false
        intro e he
        simp only [List.mem_singleton] at he
        subst he
        intro hcontra
        have hrx : root = x := hcontra
        exact hnd.1 (hrx ▸ hx))
      hnd.2]
  rfl


theorem lastName_cons (root n p : String) (rest : List (String × String)) :
    lastName root ((n, p) :: rest) = lastName n rest := rfl

theorem traceBack_chain (links : List (String × String)) :
    ∀ (start : String) (m : VarMap) (chain : List PropertyInfo) (fuel : Nat),
    chainFrom m start links →
    links.length ≤ fuel →
    traceBack m fuel (lastName start links) chain
      = traceBack m (fuel - links.length) start
          (links.map (fun l => ⟨l.2, false⟩) ++ chain) := by
  induction links with
  | nil => intro start m chain fuel _ _; simp [lastName]
  | cons l rest ih =>
    intro start m chain fuel hcf hfuel
    obtain ⟨n, p⟩ := l
    obtain ⟨hne, hget, hcf2⟩ := hcf
    rw [lastName_cons, ih n m chain fuel hcf2 (by simp at hfuel ⊢; omega)]
    obtain ⟨f2, hf2⟩ : ∃ f2, fuel - rest.length = f2 + 1 := by
      refine ⟨fuel - rest.length - 1, ?_⟩
      simp only [List.length_cons] at hfuel
      omega
    rw [hf2]
    simp only [traceBack, hget, linkEntry, List.foldl_cons, List.foldl_nil]
    rw [if_neg hne]
    have harith : f2 = fuel - ((n, p) :: rest).length := by
      simp only [List.length_cons]
      omega
    rw [← harith]
    rfl


theorem keys_linkEntries (links : List (String × String)) :
    ∀ parent : String, (linkEntries parent links).map (·.1) = links.map (·.1) := by
  induction links with
  | nil => intro parent; rfl
  | cons l rest ih =>
    intro parent
    obtain ⟨n, p⟩ := l
    simp [linkEntries, ih n]

theorem chainFrom_of_entries (links : List (String × String)) :
    ∀ (start : String) (pre : VarMap),
    (links.map (·.1)).Nodup →
    (∀ x ∈ links.map (·.1), ∀ e ∈ pre, e.1 ≠ x) →
    start ≠ "" →
    (∀ x ∈ links.map (·.1), x ≠ "") →
    chainFrom (pre ++ linkEntries start links) start links := by
  induction links with
  | nil => intro start pre _ _ _ _; trivial
  | cons l rest ih =>
    intro start pre hnd hpre hs hne
    obtain ⟨n, p⟩ := l
    simp only [List.map_cons, List.nodup_cons] at hnd
    refine ⟨hs, ?_, ?_⟩
    · rw [show linkEntries start ((n, p) :: rest)
            = (n, linkEntry start n p) :: linkEntries n rest from rfl,
         mapGet_append_of_notin pre _ n (fun e he => hpre n (by simp) e he),
         mapGet_cons_self]
    · have hassoc : pre ++ linkEntries start ((n, p) :: rest)
          = (pre ++ [(n, linkEntry start n p)]) ++ linkEntries n rest := by
        simp [linkEntries, List.append_assoc]
      rw [hassoc]
      refine ih n (pre ++ [(n, linkEntry start n p)]) hnd.2 ?_ (hne n (by simp)) ?_
      · intro x hx e he
        rcases List.mem_append.mp he with h1 | h2
        · exact hpre x (by simp [hx]) e h1
        · simp only [List.mem_singleton] at h2
          subst h2
          intro hcontra
          have hnx : n = x := hcontra
          exact hnd.1 (hnx ▸ hx)
      · intro x hx
        exact hne x (by simp [hx])

theorem mapHas_of_mem_keys (m : VarMap) (k : String) (h : k ∈ m.map (·.1)) :
    mapHas m k = true := by
  simp only [mapHas, List.any_eq_true, decide_eq_true_eq]
  obtain ⟨e, he, hk⟩ := List.mem_map.mp h
  exact ⟨e, he, hk⟩

theorem lastName_mem (links : List (String × String)) :
    ∀ root : String, lastName root links ∈ root :: links.map (·.1) := by
  induction links with
  | nil => intro root; simp [lastName]
  | cons l rest ih =>
    intro root
    obtain ⟨n, p⟩ := l
    rw [lastName_cons]
    have := ih n
    simp only [List.mem_cons] at this ⊢
    tauto


theorem fold_props_valid (ps : List String) :
    ∀ e : Expr, (∀ p ∈ ps, isValidIdentifier p = true) →
    List.foldl
      (fun expr (pinfo : PropertyInfo) =>
        Expr.optMember expr
          (if pinfo.computed || !(isValidIdentifier pinfo.propertyName)
           then Expr.strLit pinfo.propertyName
           else Expr.ident pinfo.propertyName)
          pinfo.computed)
      e (ps.map (fun p => (⟨p, false⟩ : PropertyInfo)))
      = List.foldl (fun ex p => Expr.optMember ex (Expr.ident p) false) e ps := by
  induction ps with
  | nil => intro e _; rfl
  | cons p rest ih =>
    intro e hv
    simp only [List.map_cons, List.foldl_cons]
    rw [show (if (false || !(isValidIdentifier p)) = true
          then Expr.strLit p else Expr.ident p) = Expr.ident p from by
        rw [hv p (by simp)]; rfl]
    exact ih _ (fun q hq => hv q (by simp [hq]))

theorem buildOptionalChain_family (root pfin : String)
    (links : List (String × String))
    (hnd : (root :: links.map (·.1)).Nodup)
    (hne : ∀ x ∈ root :: links.map (·.1), x ≠ "")
    (hvalid : ∀ p ∈ links.map (·.2) ++ [pfin], isValidIdentifier p = true) :
    buildOptionalChain root ((root, rootEntry root) :: linkEntries root links)
        (.member (.ident (lastName root links)) (.ident pfin) false)
      = some (mkChain root (links.map (·.2) ++ [pfin])) := by
  have hkeys : (((root, rootEntry root) :: linkEntries root links).map (·.1))
      = root :: links.map (·.1) := by
    simp [keys_linkEntries]
  have hhas : mapHas ((root, rootEntry root) :: linkEntries root links)
      (lastName root links) = true := by
    apply mapHas_of_mem_keys
    rw [hkeys]
    exact lastName_mem links root
  have hcf : chainFrom ((root, rootEntry root) :: linkEntries root links) root links := by
    have := chainFrom_of_entries links root [(root, rootEntry root)]
      (by simpa using (List.nodup_cons.mp hnd).2)
      (fun x hx e he => by
        simp only [List.mem_singleton] at he
        subst he
        intro hcontra
        have hrx : root = x := hcontra
        exact (List.nodup_cons.mp hnd).1 (hrx ▸ hx))
      (hne root (by simp))
      (fun x hx => hne x (by simp [hx]))
    simpa using this
  have hlen0 : (linkEntries root links).length = links.length := by
    have h := congrArg List.length (keys_linkEntries links root)
    simpa using h
  have hlen : (((root, rootEntry root) :: linkEntries root links).length + 1)
      = links.length + 2 := by
    simp [hlen0]
  simp only [buildOptionalChain, hhas]
  rw [hlen]
  rw [traceBack_chain links root _ _ _ hcf (by omega)]
  have harith : links.length + 2 - links.length = 2 := by omega
  rw [harith]
  have h2 : mapGet ((root, rootEntry root) :: linkEntries root links) root
      = some (rootEntry root) := mapGet_cons_self _ _ _
  simp only [traceBack]
  rw [h2]
  simp only [rootEntry, List.foldl_nil]
  simp only [if_true]
  have hmapeq : links.map (fun (l : String × String) => (⟨l.2, false⟩ : PropertyInfo))
        ++ [(⟨pfin, false⟩ : PropertyInfo)]
      = (links.map (·.2) ++ [pfin]).map (fun p => (⟨p, false⟩ : PropertyInfo)) := by
    simp [List.map_map]
  rw [hmapeq]
  have hcond : ((links.map (·.2) ++ [pfin]).map
      (fun p => (⟨p, false⟩ : PropertyInfo))).length > 0 := by simp
  rw [if_pos hcond, fold_props_valid _ _ hvalid]
  rfl


theorem analyzeOptionalChain_family (root t pfin : String) (fb : Expr)
    (links : List (String × String))
    (hnd : (root :: links.map (·.1)).Nodup)
    (hne : ∀ x ∈ root :: links.map (·.1), x ≠ "")
    (hvalid : ∀ p ∈ links.map (·.2) ++ [pfin], isValidIdentifier p = true) :
    analyzeOptionalChain (c2family root links t pfin fb)
      = some (.logical "??" (mkChain root (links.map (·.2) ++ [pfin])) fb,
              root :: links.map (·.1)) := by
  have hext : extractLogicalOrConditions
      (mkOrChain (.binary "==" .nullLit (.ident root)) (mkLinkConds root links))
      = .binary "==" .nullLit (.ident root) :: mkLinkConds root links := by
    rw [extract_mkOrChain _ _ (mkLinkConds_atomic links root)]
    rfl
  have hana := analyze_family root links hnd
  have hbuild := buildOptionalChain_family root pfin links hnd hne hvalid
  simp only [c2family, analyzeOptionalChain, Expr.isNull, Expr.isUndefined,
    Expr.isMemberLike, void0, ne_self_iff_false, if_false, Bool.not_true,
    Bool.not_false, if_true, Bool.and_true, Bool.and_false, Bool.or_true,
    Bool.or_false]
  rw [hext, hana]
  simp only [decide_True, Bool.true_or, Bool.not_true, Bool.false_eq_true,
    if_false]
  rw [hbuild]
  simp [cleanupTemporaryVariables, keys_linkEntries]


/-- C2: every conditional of the nullish-coalescing desugaring family —
`null !== (t = null == root || null === (n1 = root.p1) || void 0 === n1 || …
? void 0 : last.pfin) && void 0 !== t ? t : fallback`, with distinct,
non-empty temporaries and valid-identifier properties — is analyzed to
`root?.p1?…?.pk?.pfin ?? fallback`, properties accumulated outer-to-inner
from the root variable, and the root plus every temporary of the chain is
handed to the scope cleaner; and a deviation at a checked point (here: the
consequent identifier differing from the assigned temporary) returns null. -/
theorem claim_C2_nullish_chain_family (root t pfin : String) (fb : Expr)
    (links : List (String × String))
    (hnd : (root :: links.map (·.1)).Nodup)
    (hne : ∀ x ∈ root :: links.map (·.1), x ≠ "")
    (hvalid : ∀ p ∈ links.map (·.2) ++ [pfin], isValidIdentifier p = true) :
    (analyzeOptionalChain (c2family root links t pfin fb)
      = some (.logical "??" (mkChain root (links.map (·.2) ++ [pfin])) fb,
              root :: links.map (·.1))) ∧
    ∀ (t2 c2 : String) (inner second fb2 : Expr), t2 ≠ c2 →
      analyzeOptionalChain
        (.cond (.logical "&&"
            (.binary "!==" .nullLit (.assign "=" (.ident t2) inner)) second)
          (.ident c2) fb2) = none := by
  refine ⟨analyzeOptionalChain_family root t pfin fb links hnd hne hvalid, ?_⟩
  intro t2 c2 inner second fb2 htc
  simp only [analyzeOptionalChain, Expr.isNull, decide_True, Bool.true_or,
    Bool.not_true, Bool.false_eq_true, if_false]
  rw [if_pos htc]
  simp

/-- C2 witness: the family theorem at the quoted example — the result is
`r?.app_info?.base_info?.app_name ?? "game"` with removals `r`, `n`, `o`. -/
theorem claim_C2_family_witness :
    analyzeOptionalChain c2input
      = some (.logical "??" c2chain (.strLit "game"), ["r", "n", "o"]) := by
  have h := (claim_C2_nullish_chain_family "r" "t" "app_name" (.strLit "game")
      [("n", "app_info"), ("o", "base_info")]
      (by decide) (by decide) (by decide)).1
  exact h


end Wakaru
